import Mathlib

/-!
Verification of the Adventskalender web application (advent.py).

The Python source is shallowly embedded: files become lists of lines
(lists of characters), the SQLite reward table becomes a list of rows,
and the door-opening request handler becomes a pure function from an
environment (clock, random draws, database availability) and a state to
a response, a new state and a trace of side-effect events.  Python
string operations (strip, split, rsplit, splitlines, lower, int, str)
are modelled character-exactly for the ASCII fragment the program uses.
-/

namespace Advent

/-! ## Python character primitives -/

/-- Whitespace characters recognised by Python's str.strip (ASCII fragment:
space, tab, LF, VT, FF, CR). -/
def pyIsSpace (c : Char) : Bool :=
  c.toNat = 32 || c.toNat = 9 || c.toNat = 10 || c.toNat = 11 ||
  c.toNat = 12 || c.toNat = 13

/-- Drop leading whitespace, as Python's str.lstrip. -/
def trimL (l : List Char) : List Char := l.dropWhile pyIsSpace

/-- Drop trailing whitespace, as Python's str.rstrip. -/
def trimR (l : List Char) : List Char := (l.reverse.dropWhile pyIsSpace).reverse

/-- Python's str.strip on a character list. -/
def pyStripChars (l : List Char) : List Char := trimR (trimL l)

/-- Python's str.strip on a string. -/
def pyStrip (s : String) : String := ⟨pyStripChars s.data⟩

/-- Python's str.lower (ASCII-faithful model). -/
def toLowerChars (l : List Char) : List Char := l.map Char.toLower

/-- Split at the first occurrence of a character, as Python's
s.split(c, 1) when the separator occurs; none when it does not. -/
def splitFirstChar (c : Char) : List Char → Option (List Char × List Char)
  | [] => none
  | a :: rest =>
    if a = c then some ([], rest)
    else match splitFirstChar c rest with
      | none => none
      | some (x, y) => some (a :: x, y)

/-- Split at the last occurrence of a character, as Python's
s.rsplit(c, 1) when the separator occurs; none when it does not. -/
def rsplitOnceChar (c : Char) (l : List Char) : Option (List Char × List Char) :=
  match splitFirstChar c l.reverse with
  | none => none
  | some (x, y) => some (y.reverse, x.reverse)

/-- Boolean prefix test on character lists. -/
def startsWithChars : List Char → List Char → Bool
  | [], _ => true
  | _ :: _, [] => false
  | a :: as, b :: bs => (a == b) && startsWithChars as bs

/-- Python's str.splitlines restricted to the line boundaries LF, CR and
CRLF (the forms admin textarea input and the data files can contain). -/
def pySplitlinesChars : List Char → List (List Char)
  | [] => []
  | '\n' :: rest => [] :: pySplitlinesChars rest
  | '\r' :: '\n' :: rest => [] :: pySplitlinesChars rest
  | '\r' :: rest => [] :: pySplitlinesChars rest
  | c :: rest =>
    match pySplitlinesChars rest with
    | [] => [c] :: []
    | line :: ls => (c :: line) :: ls

/-- Join lines with a newline separator, as Python's "\n".join. -/
def joinLines : List (List Char) → List Char
  | [] => []
  | [l] => l
  | l :: m :: rest => l ++ '\n' :: joinLines (m :: rest)

/-! ## Python integer printing and parsing -/

/-- Decimal digit character for a value below ten. -/
def digitChar : Nat → Char
  | 0 => '0' | 1 => '1' | 2 => '2' | 3 => '3' | 4 => '4'
  | 5 => '5' | 6 => '6' | 7 => '7' | 8 => '8' | _ => '9'

/-- Numeric value of a decimal digit character. -/
def digitVal (c : Char) : Nat := c.toNat - 48

/-- Fuel-driven decimal printing loop; the fuel only needs to cover the
number of digits, which the callers guarantee. -/
def natToCharsAux : Nat → Nat → List Char → List Char
  | 0, _, acc => acc
  | fuel + 1, n, acc =>
    if n < 10 then digitChar n :: acc
    else natToCharsAux fuel (n / 10) (digitChar (n % 10) :: acc)

/-- Decimal representation of a natural number, as Python's str. -/
def natToChars (n : Nat) : List Char := natToCharsAux (n + 1) n []

/-- Decimal representation of an integer, as Python's str. -/
def intToChars (i : Int) : List Char :=
  if i < 0 then '-' :: natToChars i.natAbs else natToChars i.toNat

/-- ASCII decimal digit test. -/
def isDigitChar (c : Char) : Bool := 48 ≤ c.toNat && c.toNat ≤ 57

/-- Accumulating decimal reading of a digit list. -/
def charsToNatAux : List Char → Nat → Nat
  | [], acc => acc
  | c :: rest, acc => charsToNatAux rest (acc * 10 + digitVal c)

/-- Decimal value of a digit list. -/
def charsToNat (l : List Char) : Nat := charsToNatAux l 0

/-- Python's int() on a decimal string: surrounding whitespace stripped,
then an optional sign followed by ASCII digits (unicode digits and
underscore separators are not modelled; the program never produces
them). -/
def pyParseInt (l : List Char) : Option Int :=
  match pyStripChars l with
  | [] => none
  | c :: rest =>
    if c = '-' then
      if rest ≠ [] ∧ rest.all isDigitChar then some (-(charsToNat rest : Int)) else none
    else if c = '+' then
      if rest ≠ [] ∧ rest.all isDigitChar then some (charsToNat rest : Int) else none
    else if (c :: rest).all isDigitChar then some (charsToNat (c :: rest) : Int)
    else none

/-! ## Prize pool data model (preise.json) -/

/-- A validated prize pool entry, as produced by load_prizes and
parse_prize_configuration. -/
structure Prize where
  name : String
  total : Int
  remaining : Int
  sponsor : String
  sponsor_link : String
deriving DecidableEq, Repr

/-- A raw entry as read from preise.json before validation; a missing
"remaining" key is `none` (the code then defaults it to the clamped
total).  The int() coercions of the JSON values are taken as given. -/
structure RawPrize where
  name : String
  sponsor : String
  sponsor_link : String
  total : Int
  remaining : Option Int
deriving DecidableEq, Repr

/-- The hard-coded fallback pool written when no valid pool exists. -/
def default_prizes : List Prize := [⟨"Freigetränk", 15, 15, "", ""⟩]

/-- Validation of one raw entry inside the load_prizes loop: strip the
text fields, clamp total to be nonnegative, clamp remaining into
[0, total] (defaulting to total), and keep the entry only when the name
is nonempty and the total positive. -/
def normalizeRawPrize (e : RawPrize) : Option Prize :=
  let name := pyStripChars e.name.data
  let sponsor := pyStripChars e.sponsor.data
  let sponsor_link := pyStripChars e.sponsor_link.data
  let total := max e.total 0
  let remaining0 := e.remaining.getD total
  let remaining := max (min remaining0 total) 0
  if name ≠ [] ∧ 0 < total then
    some ⟨⟨name⟩, total, remaining, ⟨sponsor⟩, ⟨sponsor_link⟩⟩
  else none

/-- load_prizes: `none` stands for a missing or unreadable preise.json
(the OSError/JSONDecodeError branch); an empty validated list also
falls back to the default pool, which the code then saves. -/
def load_prizes (data : Option (List RawPrize)) : List Prize :=
  match data with
  | some entries =>
    let prizes := entries.filterMap normalizeRawPrize
    if prizes = [] then default_prizes else prizes
  | none => default_prizes

/-- get_prize_stats: total, remaining and awarded counts of a pool. -/
def get_prize_stats (prizes : List Prize) : Int × Int × Int :=
  let total := (prizes.map Prize.total).sum
  let remaining := (prizes.map Prize.remaining).sum
  (total, remaining, total - remaining)

/-! ## reduce_prize -/

/-- Availability filter of the reduce_prize loop: skip exhausted entries,
and skip the reserved entry at index 0 unless current_day is None or 24. -/
def prizeAvailable (current_day : Option Nat) (idx : Nat) (p : Prize) : Bool :=
  if p.remaining ≤ 0 then false
  else if idx = 0 ∧ current_day ≠ none ∧ current_day ≠ some 24 then false
  else true

/-- Indices of the entries eligible for the weighted draw. -/
def availableIdx (prizes : List Prize) (current_day : Option Nat) : List Nat :=
  (List.range prizes.length).filter fun i =>
    match prizes[i]? with
    | some p => prizeAvailable current_day i p
    | none => false

/-- reduce_prize: the weighted random.choices draw is modelled by an
arbitrary index `choice` into the available entries (every available
entry has a positive weight, so the support of the draw is exactly the
available list).  Returns the drawn index and entry (after its in-place
decrement) together with the updated pool; on an empty available list
the pool is returned untouched. -/
def reduce_prize (prizes : List Prize) (current_day : Option Nat) (choice : Nat) :
    Option (Nat × Prize) × List Prize :=
  let avail := availableIdx prizes current_day
  if avail = [] then (none, prizes)
  else
    match avail[choice % avail.length]? with
    | none => (none, prizes)
    | some i =>
      match prizes[i]? with
      | none => (none, prizes)
      | some p =>
        let p2 := { p with remaining := p.remaining - 1 }
        (some (i, p2), prizes.set i p2)

/-! ## Sponsor extraction and the admin configuration format -/

/-- Python's str.rfind(c, 0, pos): the greatest index below pos holding
the character, scanning downward. -/
def rfindBefore (l : List Char) (c : Char) : Nat → Option Nat
  | 0 => none
  | pos + 1 => if l[pos]? = some c then some pos else rfindBefore l c pos

/-- The backward-search loop of extract_sponsor_details.  The Python
while-loop strictly decreases search_position, so a fuel of one more
than the initial position always suffices. -/
def extractLoop (stripped : List Char) : Nat → Nat → List Char × List Char
  | 0, _ => (stripped, [])
  | fuel + 1, searchPos =>
    if searchPos = 0 then (stripped, [])
    else
      match rfindBefore stripped '(' searchPos with
      | none => (stripped, [])
      | some start =>
        let remainder := pyStripChars (stripped.drop (start + 1))
        if remainder.getLast? = some ')' then
          let url := pyStripChars remainder.dropLast
          if url ≠ [] ∧ (startsWithChars "http://".data (toLowerChars url) ||
              startsWithChars "https://".data (toLowerChars url)) = true then
            (trimR (stripped.take start), url)
          else extractLoop stripped fuel start
        else extractLoop stripped fuel start

/-- extract_sponsor_details on character lists: split a sponsor segment
into name and optional trailing "(http...)" link. -/
def extractSponsorChars (sponsor_part : List Char) : List Char × List Char :=
  let text := pyStripChars sponsor_part
  if text = [] then ([], [])
  else extractLoop text (text.length + 1) text.length

/-- extract_sponsor_details as in the source, on strings. -/
def extract_sponsor_details (sponsor_part : String) : String × String :=
  let r := extractSponsorChars sponsor_part.data
  (⟨r.1⟩, ⟨r.2⟩)

/-- The per-line failure cases of parse_prize_configuration; the raised
ValueError message carries the 1-based line index, attached by the
enumerating loop below. -/
inductive LineErrKind
  | badFormat
  | missingName
  | missingAmount
  | invalidAmount
deriving DecidableEq, Repr

/-- Errors of parse_prize_configuration: a line-indexed ValueError, or
the final "at least one prize" ValueError. -/
inductive PrizeParseError
  | lineError (kind : LineErrKind) (line : Nat)
  | noPrizes
deriving DecidableEq, Repr

/-- The tail of one parse_prize_configuration loop iteration, after the
'=' split: name/amount emptiness checks, the optional sponsor segment,
the total/remaining split and the clamping all follow the source;
entries whose clamped total is zero are skipped. -/
def parsePrizeCore (name_part amount_part : List Char) :
    Except LineErrKind (Option Prize) :=
  if name_part = [] then .error .missingName
  else if amount_part = [] then .error .missingAmount
  else
    let parts :=
      match splitFirstChar '|' name_part with
      | some (n, sp) => (pyStripChars n, extractSponsorChars (pyStripChars sp))
      | none => (name_part, ([], []))
    if parts.1 = [] then .error .missingName
    else
      let amounts :=
        match splitFirstChar '/' amount_part with
        | some (t, r) => (pyStripChars t, pyStripChars r)
        | none => (amount_part, amount_part)
      match pyParseInt amounts.1, pyParseInt amounts.2 with
      | some t, some r =>
        let total := max t 0
        let remaining := max (min r total) 0
        if total = 0 then .ok none
        else .ok (some ⟨⟨parts.1⟩, total, remaining, ⟨parts.2.1⟩, ⟨parts.2.2⟩⟩)
      | _, _ => .error .invalidAmount

/-- One iteration of the parse_prize_configuration loop on a single
line: blank lines yield no entry, lines without '=' the format error,
and the rest is handled by parsePrizeCore on the stripped halves of the
last '=' split. -/
def parsePrizeLine (line : List Char) : Except LineErrKind (Option Prize) :=
  let stripped := pyStripChars line
  if stripped = [] then .ok none
  else
    match rsplitOnceChar '=' stripped with
    | none => .error .badFormat
    | some (np, ap) => parsePrizeCore (pyStripChars np) (pyStripChars ap)

/-- The enumerate(..., start=1) loop of parse_prize_configuration. -/
def parsePrizeLinesAux : Nat → List (List Char) → List Prize →
    Except PrizeParseError (List Prize)
  | _, [], acc => if acc = [] then .error .noPrizes else .ok acc
  | idx, l :: rest, acc =>
    match parsePrizeLine l with
    | .error k => .error (.lineError k idx)
    | .ok none => parsePrizeLinesAux (idx + 1) rest acc
    | .ok (some p) => parsePrizeLinesAux (idx + 1) rest (acc ++ [p])

/-- parse_prize_configuration on a pre-split list of lines. -/
def parseConfigLines (lines : List (List Char)) : Except PrizeParseError (List Prize) :=
  parsePrizeLinesAux 1 lines []

/-- parse_prize_configuration as in the source: split the admin text
into lines, parse each, and require at least one positive entry. -/
def parse_prize_configuration (prize_data : String) : Except PrizeParseError (List Prize) :=
  parseConfigLines (pySplitlinesChars prize_data.data)

/-- One line of format_prize_lines for a single entry. -/
def formatPrizeLineChars (p : Prize) : List Char :=
  let sponsor := pyStripChars p.sponsor.data
  let sponsor_link := pyStripChars p.sponsor_link.data
  let name_segment :=
    if sponsor = [] then p.name.data
    else if sponsor_link = [] then p.name.data ++ (" | ".data) ++ sponsor
    else p.name.data ++ (" | ".data) ++ sponsor ++ (" (".data) ++ sponsor_link ++ [')']
  if p.remaining ≠ p.total then
    name_segment ++ '=' :: intToChars p.total ++ '/' :: intToChars p.remaining
  else name_segment ++ '=' :: intToChars p.total

/-- format_prize_lines: the admin textarea rendering of a pool. -/
def format_prize_lines (prizes : List Prize) : String :=
  ⟨joinLines (prizes.map formatPrizeLineChars)⟩

/-- The prize-update branch of the admin POST handler: parse the
submitted text and save the result, or on a ValueError keep the stored
pool untouched and flag the message as an error. -/
def admin_update_prizes (raw : String) (stored : List Prize) : List Prize × Bool :=
  match parse_prize_configuration raw with
  | .ok prizes => (prizes, false)
  | .error _ => (stored, true)

/-! ## release_rewards_for_user -/

/-- A reward row as passed to release_rewards_for_user (only the fields
the function reads). -/
structure UserReward where
  prize_name : String
  sponsor : String
deriving DecidableEq, Repr

/-- build_key: case-insensitive stripped (name, sponsor) pair. -/
def build_key (name sponsor : String) : List Char × List Char :=
  (toLowerChars (pyStripChars name.data), toLowerChars (pyStripChars sponsor.data))

/-- The lookup dict of release_rewards_for_user maps each key to the
entry inserted last, hence the reversed index search; the dict holds
references into the pool, modelled by returning the index. -/
def lookupIdx (prizes : List Prize) (key : List Char × List Char) : Option Nat :=
  (List.range prizes.length).reverse.find? fun i =>
    match prizes[i]? with
    | some p => decide (build_key p.name p.sponsor = key)
    | none => false

/-- One iteration of the release_rewards_for_user loop: find the pool
entry for the reward's key in the lookup built from the initial pool
(falling back to an empty-sponsor key) and give one unit back if the
entry is below its total, capping at the total. -/
def releaseStep (prizes0 : List Prize) (pool : List Prize) (reward : UserReward) :
    List Prize :=
  let key := build_key reward.prize_name reward.sponsor
  let idx :=
    match lookupIdx prizes0 key with
    | some i => some i
    | none => lookupIdx prizes0 (key.1, [])
  match idx with
  | none => pool
  | some i =>
    match pool[i]? with
    | none => pool
    | some p =>
      if p.remaining < p.total then
        pool.set i { p with remaining := min (p.remaining + 1) p.total }
      else pool

/-- release_rewards_for_user: for each reward give one unit back to the
matching pool entry.  The lookup dict is built once from the initial
pool (its keys never change); the in-place mutations of the shared
entry dicts are modelled by indexing into the current pool. -/
def release_rewards_for_user (rewards : List UserReward) (prizes : List Prize) :
    List Prize :=
  if rewards = [] then prizes
  else if prizes = [] then prizes
  else rewards.foldl (releaseStep prizes) prizes

/-! ## Winner and participation files (gewinner.txt, teilnehmer.txt)

Files are modelled as lists of lines (the text between newline
separators, which the writers never embed in a line). -/

/-- The per-line test of hat_gewonnen: first space-separated token,
then the part before the first colon, compared with str(user). -/
def gewinnerLineMatches (user : Int) (line : List Char) : Bool :=
  let l := pyStripChars line
  if l = [] then false
  else
    let pfx :=
      match splitFirstChar ' ' l with
      | some (a, _) => a
      | none => l
    let pfxId :=
      match splitFirstChar ':' pfx with
      | some (a, _) => a
      | none => pfx
    decide (pfxId = intToChars user)

/-- hat_gewonnen over the lines of gewinner.txt (a missing file is the
empty list). -/
def hat_gewonnen (user_identifier : Int) (gewinnerLines : List (List Char)) : Bool :=
  gewinnerLines.any (gewinnerLineMatches user_identifier)

/-- The date fields the program reads from today's local date. -/
structure PyDate where
  month : Nat
  day : Nat
deriving DecidableEq, Repr

/-- gewinnchance_ermitteln, with the float arithmetic carried out
exactly over the rationals (the literal 0.1 is 1/10).  The gewinner.txt
contents are passed explicitly. -/
def gewinnchance_ermitteln (user_identifier : Int) (heutiges_datum : PyDate)
    (verbleibende_preise : Int) (gewinnerLines : List (List Char)) : ℚ :=
  let verbleibende_tage : Int := 25 - (heutiges_datum.day : Int)
  if verbleibende_tage ≤ 0 ∨ verbleibende_preise ≤ 0 then 0
  else
    let gewinnchance : ℚ := (verbleibende_preise : ℚ) / (verbleibende_tage : ℚ)
    if hat_gewonnen user_identifier gewinnerLines then gewinnchance * (1 / 10)
    else gewinnchance

/-- The per-line test of hat_teilgenommen: strip, split at the last
'-', take the part before the first ':' as the user key, and compare
both halves; lines without '-' are skipped (the ValueError branch). -/
def teilnahmeLineMatches (user : Int) (tag : Nat) (line : List Char) : Bool :=
  let cleaned := pyStripChars line
  if cleaned = [] then false
  else
    match rsplitOnceChar '-' cleaned with
    | none => false
    | some (user_part, tag_part) =>
      let user_key :=
        match splitFirstChar ':' user_part with
        | some (a, _) => a
        | none => user_part
      decide (user_key = intToChars user ∧ tag_part = natToChars tag)

/-- hat_teilgenommen over the lines of teilnehmer.txt. -/
def hat_teilgenommen (user_identifier : Int) (tag : Nat)
    (lines : List (List Char)) : Bool :=
  lines.any (teilnahmeLineMatches user_identifier tag)

/-- speichere_teilnehmer appends the line "user:display_name-tag". -/
def speichere_teilnehmer (user_identifier : Int) (display_name : List Char)
    (tag : Nat) (lines : List (List Char)) : List (List Char) :=
  lines ++ [intToChars user_identifier ++ ':' :: display_name ++ '-' :: natToChars tag]

/-- speichere_gewinner appends the line
"user:name - Tag t - prize[ - Sponsor: s] - OV L11 - year". -/
def speichere_gewinner (user_identifier : Int) (display_name : List Char)
    (tag : Nat) (preis : String) (jahr : Int) (sponsor : String)
    (lines : List (List Char)) : List (List Char) :=
  let sponsor_text :=
    if sponsor = "" then [] else (" - Sponsor: ".data) ++ pyStripChars sponsor.data
  lines ++ [intToChars user_identifier ++ ':' :: display_name ++ (" - Tag ".data) ++
    natToChars tag ++ (" - ".data) ++ preis.data ++ sponsor_text ++
    (" - OV L11 - ".data) ++ intToChars jahr]

/-! ## The user_rewards table and record_user_reward -/

/-- A row of the user_rewards SQLite table ("" stands for NULL in the
optional columns). -/
structure RewardRow where
  user_id : Int
  door : Nat
  prize_name : String
  sponsor : String
  sponsor_link : String
  qr_filename : String
  qr_content : String
deriving DecidableEq, Repr

/-- The INSERT ... ON CONFLICT(user_id, door) DO UPDATE upsert on the
table, which has a unique index on (user_id, door). -/
def upsertReward : List RewardRow → RewardRow → List RewardRow
  | [], row => [row]
  | r :: rest, row =>
    if r.user_id = row.user_id ∧ r.door = row.door then row :: rest
    else r :: upsertReward rest row

/-- The "str(x or '').strip() or None" normalisation of the optional
columns, with "" standing for NULL. -/
def orNone (s : String) : String :=
  if pyStripChars s.data = [] then "" else ⟨pyStripChars s.data⟩

/-- record_user_reward.  A falsy user_id (0) or empty prize name makes
the function return without writing.  A failing database write
(dbOk = false) raises sqlite3.DatabaseError, which the function catches
and merely logs: the table is unchanged and nothing is reported to the
caller — the function always returns None either way. -/
def record_user_reward (store : List RewardRow) (user_id : Int) (door : Nat)
    (prize_name sponsor sponsor_link qr_filename qr_content : String)
    (dbOk : Bool) : List RewardRow :=
  if user_id = 0 ∨ prize_name = "" then store
  else if dbOk = false then store
  else
    upsertReward store
      { user_id := user_id, door := door,
        prize_name := ⟨pyStripChars prize_name.data⟩,
        sponsor := orNone sponsor, sponsor_link := orNone sponsor_link,
        qr_filename := orNone qr_filename, qr_content := orNone qr_content }

/-! ## The door-open request handler oeffne_tuerchen -/

/-- The hours during which a draw can win. -/
def gewinn_zeiten : List Nat := [12, 13, 14, 15, 16, 17, 18, 19, 20, 21]

/-- markupsafe.escape on one character (codepoints 38 &, 60 <, 62 >,
39 apostrophe, 34 quote). -/
def escapeChar (c : Char) : List Char :=
  if c.toNat = 38 then "&amp;".data
  else if c.toNat = 60 then "&lt;".data
  else if c.toNat = 62 then "&gt;".data
  else if c.toNat = 39 then "&#39;".data
  else if c.toNat = 34 then "&#34;".data
  else [c]

/-- markupsafe.escape on a string. -/
def pyEscape (s : String) : String :=
  ⟨s.data.foldr (fun c acc => escapeChar c ++ acc) []⟩

/-- Outcome tag of a door-open request; each tag corresponds to one
return statement of the handler. -/
inductive DoorKind
  | inactive
  | notYet
  | alreadyOpened
  | exhausted
  | exhaustedMain
  | lost
  | won
deriving DecidableEq, Repr

/-- Side-effect events the handler performs, in order, used to state
temporal properties. -/
inductive DoorEvent
  | writeParticipation
  | readPool
  | evalOdds
  | drawPrize
  | writeWinner
  | recordReward
deriving DecidableEq, Repr

/-- The HTTP response: every handler branch renders a page with
make_response's default status 200; `content` is the text passed into
the GENERIC_PAGE template. -/
structure DoorResponse where
  status : Nat
  kind : DoorKind
  content : String
deriving DecidableEq, Repr

/-- The persistent state the handler touches: the two text files, the
prize pool file, the user_rewards table and the in-memory
tuerchen_status sets. -/
structure CalState where
  teilnehmer : List (List Char)
  gewinner : List (List Char)
  prizes : List Prize
  rewards : List RewardRow
  tuerchen_status : List (Nat × List Char)
deriving DecidableEq, Repr

/-- The handler's environment: calendar activation flag, today's local
date and hour, the random.random() draw, the weighted-choice index of
reduce_prize, and whether the reward INSERT succeeds. -/
structure DoorEnv where
  calendarActive : Bool
  month : Nat
  day : Nat
  year : Int
  hour : Nat
  rand : ℚ
  drawChoice : Nat
  dbOk : Bool
deriving DecidableEq, Repr

/-- The authenticated user of the session. -/
structure DoorUser where
  id : Int
  display_name : String
deriving DecidableEq, Repr

def msgInactive : String :=
  "Der Adventskalender ist derzeit nicht aktiv. Bitte schau später noch einmal vorbei."

def msgAlready : String := "Du hast dieses Türchen heute bereits geöffnet!"

def msgExhausted : String := "Alle Preise wurden bereits vergeben."

def msgExhaustedMain : String :=
  "Alle heutigen Preise wurden bereits vergeben. Der Hauptpreis wird erst am 24. Dezember verlost."

def msgNotYet : String := "Dieses Türchen kann heute noch nicht geöffnet werden."

/-- The sponsor link/name fragment of the congratulation message. -/
def sponsorHint (sponsor_name sponsor_link : String) : List Char :=
  if sponsor_name = "" then []
  else if sponsor_link = "" then (" – Sponsor: ".data) ++ (pyEscape sponsor_name).data
  else
    (" – Sponsor: <a href=\"".data) ++ (pyEscape sponsor_link).data ++
    ("\" target=\"_blank\" rel=\"noopener noreferrer\">".data) ++
    (pyEscape sponsor_name).data ++ ("</a>".data)

/-- The congratulation message of the win branch. -/
def winContent (safe_name : String) (prize_label : List Char)
    (sponsor_name sponsor_link : String) (qr_escaped : List Char) : String :=
  ⟨("Glückwunsch, ".data) ++ safe_name.data ++ ("! Du hast ".data) ++ prize_label ++
    sponsorHint sponsor_name sponsor_link ++
    (" gewonnen. <a href='/download_qr/".data) ++ qr_escaped ++
    ("'>Lade deinen QR-Code herunter</a> oder sieh ihn dir <a href='/qr_codes/".data) ++
    qr_escaped ++ ("'>hier an</a>.".data)⟩

/-- The oeffne_tuerchen request handler, from the calendar-activation
check on (the preceding session lookup only redirects unauthenticated
requests).  Returns the response, the final state and the ordered trace
of side effects. -/
def oeffne_tuerchen (env : DoorEnv) (user : DoorUser) (tag : Nat) (st : CalState) :
    DoorResponse × CalState × List DoorEvent :=
  if env.calendarActive = false then
    (⟨200, .inactive, msgInactive⟩, st, [])
  else
    let safe_display_name := pyEscape user.display_name
    if env.month = 12 ∧ env.day = tag then
      if hat_teilgenommen user.id tag st.teilnehmer then
        (⟨200, .alreadyOpened, msgAlready⟩, st, [])
      else
        let st1 : CalState :=
          { st with
            teilnehmer := speichere_teilnehmer user.id user.display_name.data tag st.teilnehmer
            tuerchen_status := st.tuerchen_status ++ [(tag, intToChars user.id)] }
        let prizes := st1.prizes
        let verbleibende_preise := (get_prize_stats prizes).2.1
        if verbleibende_preise ≤ 0 then
          (⟨200, .exhausted, msgExhausted⟩, st1,
            [.writeParticipation, .readPool])
        else
          let gewinnchance :=
            gewinnchance_ermitteln user.id ⟨env.month, env.day⟩ verbleibende_preise
              st1.gewinner
          if env.hour ∈ gewinn_zeiten ∧ env.rand < gewinnchance then
            let draw := reduce_prize prizes (some env.day) env.drawChoice
            let st2 := { st1 with prizes := draw.2 }
            let mainPrizeLeft : Bool :=
              match draw.2 with
              | p0 :: _ => decide (0 < p0.remaining)
              | [] => false
            let hinweis : DoorResponse :=
              if tag ≠ 24 ∧ mainPrizeLeft = true then
                ⟨200, .exhaustedMain, msgExhaustedMain⟩
              else ⟨200, .exhausted, msgExhausted⟩
            match draw.1 with
            | none =>
              (hinweis, st2,
                [.writeParticipation, .readPool, .evalOdds, .drawPrize])
            | some (_, p) =>
              if p.name = "" then
                (hinweis, st2,
                  [.writeParticipation, .readPool, .evalOdds, .drawPrize])
              else
                let preis_name := p.name
                let sponsor_name : String := ⟨pyStripChars p.sponsor.data⟩
                let sponsor_link : String := ⟨pyStripChars p.sponsor_link.data⟩
                let gewinner2 :=
                  speichere_gewinner user.id user.display_name.data tag preis_name
                    env.year sponsor_name st1.gewinner
                let qr_content : String :=
                  ⟨natToChars tag ++ '-' :: user.display_name.data ++
                    '-' :: intToChars user.id ++ '-' :: preis_name.data ++
                    ("-OV L11-".data) ++ intToChars env.year⟩
                let qr_filename : String :=
                  ⟨("user_".data) ++ intToChars user.id ++ '_' :: natToChars tag ++
                    (".png".data)⟩
                let rewards2 :=
                  record_user_reward st2.rewards user.id tag preis_name sponsor_name
                    sponsor_link qr_filename qr_content env.dbOk
                let st3 := { st2 with gewinner := gewinner2, rewards := rewards2 }
                (⟨200, .won,
                    winContent safe_display_name (pyEscape preis_name).data
                      sponsor_name sponsor_link (pyEscape qr_filename).data⟩,
                  st3,
                  [.writeParticipation, .readPool, .evalOdds, .drawPrize,
                    .writeWinner, .recordReward])
          else
            (⟨200, .lost,
                ⟨("Du hattest heute leider kein Glück, ".data) ++
                  safe_display_name.data ++
                  (". Versuche es morgen noch einmal!".data)⟩⟩, st1,
              [.writeParticipation, .readPool, .evalOdds])
    else
      (⟨200, .notYet, msgNotYet⟩, st, [])

/-! ## Lemmas about decimal printing and parsing -/

theorem natToCharsAux_append (fuel : Nat) : ∀ (n : Nat) (acc : List Char),
    natToCharsAux fuel n acc = natToCharsAux fuel n [] ++ acc := by
  induction fuel with
  | zero => intro n acc; simp [natToCharsAux]
  | succ f ih =>
    intro n acc
    simp only [natToCharsAux]
    split
    · rfl
    · rw [ih (n / 10) (digitChar (n % 10) :: acc), ih (n / 10) [digitChar (n % 10)]]
      simp

theorem natToCharsAux_fuel (f1 : Nat) : ∀ (f2 n : Nat) (acc : List Char),
    n < 10 ^ f1 → n < 10 ^ f2 → 0 < f1 → 0 < f2 →
    natToCharsAux f1 n acc = natToCharsAux f2 n acc := by
  induction f1 with
  | zero => intro _ _ _ _ _ h; omega
  | succ g ih =>
    intro f2 n acc h1 h2 _ p2
    cases f2 with
    | zero => omega
    | succ h =>
      simp only [natToCharsAux]
      split
      · rfl
      · have hn : 10 ≤ n := by omega
        have hg : 0 < g := by
          by_contra hg0
          have : g = 0 := by omega
          subst this
          simp at h1
          omega
        have hh : 0 < h := by
          by_contra hh0
          have : h = 0 := by omega
          subst this
          simp at h2
          omega
        have d1 : n / 10 < 10 ^ g := by
          have : n < 10 ^ g * 10 := by
            have : (10 : Nat) ^ (g + 1) = 10 ^ g * 10 := by ring
            omega
          omega
        have d2 : n / 10 < 10 ^ h := by
          have : n < 10 ^ h * 10 := by
            have : (10 : Nat) ^ (h + 1) = 10 ^ h * 10 := by ring
            omega
          omega
        exact ih h (n / 10) _ d1 d2 hg hh

theorem natToChars_unfold (n : Nat) :
    natToChars n = if n < 10 then [digitChar n]
      else natToChars (n / 10) ++ [digitChar (n % 10)] := by
  unfold natToChars
  split
  · rename_i h
    simp [natToCharsAux, h]
  · rename_i h
    have step : natToCharsAux (n + 1) n [] =
        natToCharsAux n (n / 10) [digitChar (n % 10)] := by
      simp [natToCharsAux, h]
    rw [step]
    rw [natToCharsAux_fuel n (n / 10 + 1) (n / 10) [digitChar (n % 10)]
      (by calc n / 10 ≤ n := Nat.div_le_self n 10
            _ < 10 ^ n := Nat.lt_pow_self (by omega) n)
      (Nat.lt_pow_self (by omega) (n / 10) |>.trans_le
        (Nat.pow_le_pow_right (by omega) (by omega)))
      (by omega) (by omega)]
    rw [natToCharsAux_append]

theorem digitChar_toNat {d : Nat} (h : d < 10) : (digitChar d).toNat = 48 + d := by
  interval_cases d <;> rfl

theorem natToChars_digits (n : Nat) :
    ∀ c ∈ natToChars n, 48 ≤ c.toNat ∧ c.toNat ≤ 57 := by
  induction n using Nat.strong_induction_on with
  | _ n ih =>
    rw [natToChars_unfold]
    split
    · rename_i h
      intro c hc
      have : c = digitChar n := by simpa using hc
      subst this
      rw [digitChar_toNat h]
      omega
    · rename_i h
      intro c hc
      rcases List.mem_append.1 hc with h1 | h1
      · exact ih (n / 10) (Nat.div_lt_self (by omega) (by omega)) c h1
      · have : c = digitChar (n % 10) := by simpa using h1
        subst this
        rw [digitChar_toNat (Nat.mod_lt n (by omega))]
        have := Nat.mod_lt n (show 0 < 10 by omega)
        omega

theorem natToChars_ne_nil (n : Nat) : natToChars n ≠ [] := by
  rw [natToChars_unfold]
  split <;> simp

theorem charsToNatAux_append (x : List Char) : ∀ (y : List Char) (a : Nat),
    charsToNatAux (x ++ y) a = charsToNatAux y (charsToNatAux x a) := by
  induction x with
  | nil => intro y a; simp [charsToNatAux]
  | cons c t ih => intro y a; simp [charsToNatAux, ih]

theorem digitVal_digitChar {d : Nat} (h : d < 10) : digitVal (digitChar d) = d := by
  interval_cases d <;> rfl

theorem charsToNat_natToChars (n : Nat) : charsToNat (natToChars n) = n := by
  induction n using Nat.strong_induction_on with
  | _ n ih =>
    rw [natToChars_unfold]
    split
    · rename_i h
      simp [charsToNat, charsToNatAux, digitVal_digitChar h]
    · rename_i h
      rw [charsToNat, charsToNatAux_append]
      have := ih (n / 10) (Nat.div_lt_self (by omega) (by omega))
      rw [charsToNat] at this
      rw [this]
      rw [charsToNatAux, charsToNatAux, digitVal_digitChar (Nat.mod_lt n (by omega))]
      omega

theorem natToChars_injective {m n : Nat} (h : natToChars m = natToChars n) : m = n := by
  have := charsToNat_natToChars m
  rw [h, charsToNat_natToChars] at this
  omega

theorem natToChars_all_digits (n : Nat) : (natToChars n).all isDigitChar = true := by
  rw [List.all_eq_true]
  intro c hc
  have := natToChars_digits n c hc
  simp [isDigitChar]
  omega

theorem pyIsSpace_false_of_digit {c : Char} (h1 : 48 ≤ c.toNat) (h2 : c.toNat ≤ 57) :
    pyIsSpace c = false := by
  simp [pyIsSpace]
  omega

theorem not_mem_natToChars {c : Char} (n : Nat)
    (h : c.toNat < 48 ∨ 57 < c.toNat) : c ∉ natToChars n := by
  intro hc
  have := natToChars_digits n c hc
  omega

theorem intToChars_nonneg {i : Int} (h : 0 ≤ i) : intToChars i = natToChars i.toNat := by
  unfold intToChars
  rw [if_neg (by omega)]

theorem pyParseInt_sign_aux {c : Char} (h1 : 48 ≤ c.toNat) (h2 : c.toNat ≤ 57) :
    c ≠ '-' ∧ c ≠ '+' := by
  constructor
  · rintro rfl
    revert h1
    decide
  · rintro rfl
    revert h1
    decide

/-! ## Lemmas about stripping -/

/-- The first character, if any, is not whitespace. -/
def NonSpaceHead (l : List Char) : Prop :=
  ∀ c, l.head? = some c → pyIsSpace c = false

/-- The last character, if any, is not whitespace. -/
def NonSpaceLast (l : List Char) : Prop :=
  ∀ c, l.getLast? = some c → pyIsSpace c = false

/-- A string equal to its own strip: no leading and no trailing space. -/
def TrimmedChars (l : List Char) : Prop := NonSpaceHead l ∧ NonSpaceLast l

theorem trimL_eq_self {l : List Char} (h : NonSpaceHead l) : trimL l = l := by
  cases l with
  | nil => rfl
  | cons a t => simp [trimL, List.dropWhile_cons, h a rfl]

theorem trimR_eq_self {l : List Char} (h : NonSpaceLast l) : trimR l = l := by
  unfold trimR
  have hrev : l.reverse.dropWhile pyIsSpace = l.reverse := by
    cases hr : l.reverse with
    | nil => rfl
    | cons a t =>
      have ha : l.getLast? = some a := by
        rw [← List.head?_reverse, hr]
        rfl
      simp [List.dropWhile_cons, h a ha]
  rw [hrev, List.reverse_reverse]

theorem pyStripChars_eq_self {l : List Char} (h : TrimmedChars l) :
    pyStripChars l = l := by
  unfold pyStripChars
  rw [trimL_eq_self h.1, trimR_eq_self h.2]

theorem getLast?_append_right {α : Type} (a b : List α) (hb : b ≠ []) :
    (a ++ b).getLast? = b.getLast? := by
  rw [← List.head?_reverse, ← List.head?_reverse, List.reverse_append]
  cases hr : b.reverse with
  | nil =>
    exact absurd (by simpa using congrArg List.reverse hr) hb
  | cons x t => simp

theorem head?_append_left {α : Type} (a b : List α) (ha : a ≠ []) :
    (a ++ b).head? = a.head? := by
  cases a with
  | nil => exact absurd rfl ha
  | cons x t => simp

theorem nonSpaceHead_append_left {a b : List Char} (ha : a ≠ [])
    (h : NonSpaceHead a) : NonSpaceHead (a ++ b) := by
  intro c hc
  rw [head?_append_left a b ha] at hc
  exact h c hc

theorem nonSpaceLast_append_right {a b : List Char} (hb : b ≠ [])
    (h : NonSpaceLast b) : NonSpaceLast (a ++ b) := by
  intro c hc
  rw [getLast?_append_right a b hb] at hc
  exact h c hc

theorem trimL_cons_space {c : Char} {l : List Char} (h : pyIsSpace c = true) :
    trimL (c :: l) = trimL l := by
  simp [trimL, List.dropWhile_cons, h]

theorem trimR_append_space {c : Char} {l : List Char} (h : pyIsSpace c = true) :
    trimR (l ++ [c]) = trimR l := by
  unfold trimR
  rw [List.reverse_append]
  simp [List.dropWhile_cons, h]

theorem pyStripChars_append_space {l : List Char} (hl : l ≠ [])
    (h : TrimmedChars l) : pyStripChars (l ++ [' ']) = l := by
  unfold pyStripChars
  rw [trimL_eq_self (nonSpaceHead_append_left hl h.1)]
  rw [trimR_append_space (by rfl), trimR_eq_self h.2]

theorem pyStripChars_cons_space {l : List Char} (h : TrimmedChars l) :
    pyStripChars (' ' :: l) = l := by
  unfold pyStripChars
  rw [trimL_cons_space (by rfl), trimL_eq_self h.1, trimR_eq_self h.2]

/-! ## Lemmas about splitting -/

theorem splitFirstChar_not_mem {c : Char} {l : List Char} (h : c ∉ l) :
    splitFirstChar c l = none := by
  induction l with
  | nil => rfl
  | cons a t ih =>
    have ha : ¬ a = c := fun e => h (by simp [e])
    have ht : c ∉ t := fun m => h (List.mem_cons_of_mem _ m)
    simp [splitFirstChar, ha, ih ht]

theorem splitFirstChar_append {c : Char} {a b : List Char} (h : c ∉ a) :
    splitFirstChar c (a ++ c :: b) = some (a, b) := by
  induction a with
  | nil => simp [splitFirstChar]
  | cons x t ih =>
    have hx : ¬ x = c := fun e => h (by simp [e])
    have ht : c ∉ t := fun m => h (List.mem_cons_of_mem _ m)
    simp [splitFirstChar, hx, ih ht]

theorem rsplitOnceChar_not_mem {c : Char} {l : List Char} (h : c ∉ l) :
    rsplitOnceChar c l = none := by
  unfold rsplitOnceChar
  rw [splitFirstChar_not_mem (by simpa using h)]

theorem rsplitOnceChar_append {c : Char} {a b : List Char} (h : c ∉ b) :
    rsplitOnceChar c (a ++ c :: b) = some (a, b) := by
  unfold rsplitOnceChar
  have : (a ++ c :: b).reverse = b.reverse ++ c :: a.reverse := by simp
  rw [this, splitFirstChar_append (by simpa using h)]
  simp

/-! ## Lemmas about splitlines and joinLines -/

/-- Free of both newline characters a Python text-mode file or
splitlines would break at. -/
def NoNewline (l : List Char) : Prop := '\n' ∉ l ∧ '\r' ∉ l

theorem pySplitlines_cons {c : Char} {rest : List Char}
    (h1 : c ≠ '\n') (h2 : c ≠ '\r') :
    pySplitlinesChars (c :: rest) =
      match pySplitlinesChars rest with
      | [] => [c] :: []
      | line :: ls => (c :: line) :: ls := by
  rw [pySplitlinesChars]
  · exact h1
  · intro rest1 e _
    exact absurd e h2
  · exact h2

theorem pySplitlines_append_newline {a : List Char} (b : List Char)
    (h : NoNewline a) :
    pySplitlinesChars (a ++ '\n' :: b) = a :: pySplitlinesChars b := by
  induction a with
  | nil => rfl
  | cons x t ih =>
    have hx1 : x ≠ '\n' := fun e => h.1 (by simp [e])
    have hx2 : x ≠ '\r' := fun e => h.2 (by simp [e])
    have ht : NoNewline t :=
      ⟨fun m => h.1 (List.mem_cons_of_mem _ m), fun m => h.2 (List.mem_cons_of_mem _ m)⟩
    rw [List.cons_append, pySplitlines_cons hx1 hx2, ih ht]

theorem pySplitlines_single {a : List Char} (ha : a ≠ []) (h : NoNewline a) :
    pySplitlinesChars a = [a] := by
  induction a with
  | nil => exact absurd rfl ha
  | cons x t ih =>
    have hx1 : x ≠ '\n' := fun e => h.1 (by simp [e])
    have hx2 : x ≠ '\r' := fun e => h.2 (by simp [e])
    have ht : NoNewline t :=
      ⟨fun m => h.1 (List.mem_cons_of_mem _ m), fun m => h.2 (List.mem_cons_of_mem _ m)⟩
    rw [pySplitlines_cons hx1 hx2]
    by_cases te : t = []
    · subst te
      rfl
    · rw [ih te ht]

theorem pySplitlines_joinLines {ls : List (List Char)} (hne : ls ≠ [])
    (h : ∀ l ∈ ls, l ≠ [] ∧ NoNewline l) :
    pySplitlinesChars (joinLines ls) = ls := by
  induction ls with
  | nil => exact absurd rfl hne
  | cons a rest ih =>
    cases rest with
    | nil =>
      rw [joinLines]
      exact pySplitlines_single (h a (by simp)).1 (h a (by simp)).2
    | cons b rest2 =>
      rw [show joinLines (a :: b :: rest2) = a ++ '\n' :: joinLines (b :: rest2) from rfl]
      rw [pySplitlines_append_newline _ (h a (by simp)).2]
      rw [ih (by simp) (fun l hl => h l (List.mem_cons_of_mem _ hl))]

/-! ## Trimmedness of decimal strings and integer parse round-trips -/

theorem mem_of_head?_eq {α : Type} {l : List α} {a : α} (h : l.head? = some a) :
    a ∈ l := by
  cases l with
  | nil => cases h
  | cons x t =>
    simp at h
    subst h
    simp

theorem mem_of_getLast?_eq {α : Type} {l : List α} {a : α}
    (h : l.getLast? = some a) : a ∈ l := by
  rw [← List.head?_reverse] at h
  simpa using mem_of_head?_eq h

theorem trimmed_of_all_digits {l : List Char}
    (h : ∀ c ∈ l, 48 ≤ c.toNat ∧ c.toNat ≤ 57) : TrimmedChars l := by
  constructor
  · intro c hc
    have := h c (mem_of_head?_eq hc)
    exact pyIsSpace_false_of_digit this.1 this.2
  · intro c hc
    have := h c (mem_of_getLast?_eq hc)
    exact pyIsSpace_false_of_digit this.1 this.2

theorem trimmed_natToChars (n : Nat) : TrimmedChars (natToChars n) :=
  trimmed_of_all_digits (natToChars_digits n)

theorem intToChars_ne_nil (i : Int) : intToChars i ≠ [] := by
  unfold intToChars
  split
  · simp
  · exact natToChars_ne_nil _

theorem trimmed_intToChars (i : Int) : TrimmedChars (intToChars i) := by
  unfold intToChars
  split
  · constructor
    · intro c hc
      simp at hc
      subst hc
      rfl
    · intro c hc
      have hmem := mem_of_getLast?_eq hc
      rcases List.mem_cons.1 hmem with h | h
      · subst h; rfl
      · have := natToChars_digits _ c h
        exact pyIsSpace_false_of_digit this.1 this.2
  · exact trimmed_natToChars _

theorem not_mem_intToChars {c : Char} (i : Int)
    (hd : c.toNat < 48 ∨ 57 < c.toNat) (hm : c ≠ '-') : c ∉ intToChars i := by
  unfold intToChars
  split
  · intro hc
    rcases List.mem_cons.1 hc with h | h
    · exact hm h
    · exact not_mem_natToChars _ hd h
  · exact not_mem_natToChars _ hd

theorem pyParseInt_natToChars (n : Nat) : pyParseInt (natToChars n) = some (n : Int) := by
  unfold pyParseInt
  rw [pyStripChars_eq_self (trimmed_natToChars n)]
  rcases hn : natToChars n with _ | ⟨c, cs⟩
  · exact absurd hn (natToChars_ne_nil n)
  · have hc := natToChars_digits n c (by rw [hn]; simp)
    have hsign := pyParseInt_sign_aux hc.1 hc.2
    have hall : (c :: cs).all isDigitChar = true := by
      rw [← hn]
      exact natToChars_all_digits n
    have hval : charsToNat (c :: cs) = n := by
      rw [← hn, charsToNat_natToChars]
    simp [hsign.1, hsign.2, hall, hval]

theorem pyParseInt_intToChars (i : Int) : pyParseInt (intToChars i) = some i := by
  by_cases hneg : i < 0
  · have hform : intToChars i = '-' :: natToChars i.natAbs := by
      unfold intToChars
      rw [if_pos hneg]
    have htrim : TrimmedChars ('-' :: natToChars i.natAbs) := by
      rw [← hform]
      exact trimmed_intToChars i
    unfold pyParseInt
    rw [hform, pyStripChars_eq_self htrim]
    have habs : (i.natAbs : Int) = -i := by omega
    simp [natToChars_ne_nil, natToChars_all_digits, charsToNat_natToChars, habs]
  · have hform : intToChars i = natToChars i.toNat := by
      unfold intToChars
      rw [if_neg hneg]
    rw [hform, pyParseInt_natToChars]
    congr 1
    omega

theorem intToChars_injective {i j : Int} (h : intToChars i = intToChars j) :
    i = j := by
  have hcongr := pyParseInt_intToChars i
  rw [h, pyParseInt_intToChars] at hcongr
  exact (Option.some_inj.mp hcongr).symm

theorem colon_not_mem_intToChars (i : Int) : ':' ∉ intToChars i :=
  not_mem_intToChars i (by right; decide) (by decide)

theorem dash_not_mem_natToChars (n : Nat) : '-' ∉ natToChars n :=
  not_mem_natToChars n (by left; decide)

/-! ## The participation line written by speichere_teilnehmer -/

theorem teilnahmeLine_matches_iff (uid u2 : Int) (day d2 : Nat) (name : List Char) :
    teilnahmeLineMatches u2 d2
        (intToChars uid ++ ':' :: name ++ '-' :: natToChars day) = true ↔
      (u2 = uid ∧ d2 = day) := by
  have htrim : TrimmedChars (intToChars uid ++ ':' :: name ++ '-' :: natToChars day) := by
    constructor
    · exact nonSpaceHead_append_left (by simp)
        (nonSpaceHead_append_left (intToChars_ne_nil uid) (trimmed_intToChars uid).1)
    · intro c hc
      rw [show (intToChars uid ++ ':' :: name) ++ '-' :: natToChars day =
          ((intToChars uid ++ ':' :: name) ++ ['-']) ++ natToChars day by simp] at hc
      rw [getLast?_append_right _ _ (natToChars_ne_nil day)] at hc
      exact (trimmed_natToChars day).2 c hc
  unfold teilnahmeLineMatches
  rw [pyStripChars_eq_self htrim]
  rw [if_neg (by simp)]
  rw [rsplitOnceChar_append (dash_not_mem_natToChars day)]
  simp only [splitFirstChar_append (colon_not_mem_intToChars uid), decide_eq_true_eq]
  constructor
  · rintro ⟨ha, hb⟩
    exact ⟨(intToChars_injective ha).symm, (natToChars_injective hb).symm⟩
  · rintro ⟨ha, hb⟩
    subst ha
    subst hb
    exact ⟨rfl, rfl⟩

/-- C10: after speichere_teilnehmer appends its line for (user, day),
hat_teilgenommen(user, day) is true, and every other pair (user2, day2)
reads exactly what it read before the append — including display names
containing '-' or ':'.  The day is a natural number (the Flask route
converter int:tag only matches nonnegative numbers), and the
newline-free display name (neither LF nor CR, which universal-newline
file reading would both treat as line breaks) is what keeps the append
a single line of the file. -/
theorem C10_participation_append (uid : Int) (day : Nat) (name : String)
    (file : List (List Char)) (h1 : '\n' ∉ name.data) (h2 : '\r' ∉ name.data) :
    hat_teilgenommen uid day (speichere_teilnehmer uid name.data day file) = true ∧
    (∀ (u2 : Int) (d2 : Nat), ¬(u2 = uid ∧ d2 = day) →
      hat_teilgenommen u2 d2 (speichere_teilnehmer uid name.data day file) =
        hat_teilgenommen u2 d2 file) := by
  constructor
  · unfold hat_teilgenommen speichere_teilnehmer
    rw [List.any_append]
    have hmt : teilnahmeLineMatches uid day
        (intToChars uid ++ ':' :: name.data ++ '-' :: natToChars day) = true :=
      (teilnahmeLine_matches_iff uid uid day day name.data).mpr ⟨rfl, rfl⟩
    simp only [List.any_cons, List.any_nil, hmt, Bool.or_false, Bool.or_true]
  · intro u2 d2 hne
    unfold hat_teilgenommen speichere_teilnehmer
    rw [List.any_append]
    have hmf : teilnahmeLineMatches u2 d2
        (intToChars uid ++ ':' :: name.data ++ '-' :: natToChars day) = false := by
      rw [Bool.eq_false_iff]
      intro hc
      exact hne ((teilnahmeLine_matches_iff uid u2 day d2 name.data).mp hc)
    simp only [List.any_cons, List.any_nil, hmf, Bool.or_false]

/-- Witness for C10 at a concrete input whose display name contains both
'-' and ':'. -/
theorem C10_witness :
    hat_teilgenommen 7 5 (speichere_teilnehmer 7 "Max-Mu:ster".data 5 []) = true ∧
    hat_teilgenommen 7 6 (speichere_teilnehmer 7 "Max-Mu:ster".data 5 []) =
      hat_teilgenommen 7 6 [] := by
  have h := C10_participation_append 7 5 "Max-Mu:ster" [] (by decide) (by decide)
  exact ⟨h.1, h.2 7 6 (by decide)⟩

/-- C3: gewinnchance_ermitteln returns 0 when 25 - today.day ≤ 0 or no
prizes remain; otherwise remaining_prizes / remaining_days, times 1/10
exactly when the user has won before; and on December 5 with 15 prizes
it is 3/4 for a user who never won and 3/40 for one who has.  The float
arithmetic of the source is modelled exactly over ℚ. -/
theorem C3_gewinnchance (user : Int) (g : List (List Char)) (d : PyDate) (r : Int) :
    ((25 - (d.day : Int) ≤ 0 ∨ r ≤ 0) → gewinnchance_ermitteln user d r g = 0) ∧
    (0 < 25 - (d.day : Int) → 0 < r →
      gewinnchance_ermitteln user d r g =
        (if hat_gewonnen user g then
          ((r : ℚ) / ((25 - (d.day : Int) : Int) : ℚ)) * (1 / 10)
         else (r : ℚ) / ((25 - (d.day : Int) : Int) : ℚ))) ∧
    (hat_gewonnen user g = false → gewinnchance_ermitteln user ⟨12, 5⟩ 15 g = 3 / 4) ∧
    (hat_gewonnen user g = true → gewinnchance_ermitteln user ⟨12, 5⟩ 15 g = 3 / 40) := by
  refine ⟨?_, ?_, ?_, ?_⟩
  · intro h
    unfold gewinnchance_ermitteln
    rw [if_pos h]
  · intro h1 h2
    unfold gewinnchance_ermitteln
    rw [if_neg (by omega)]
  · intro hw
    unfold gewinnchance_ermitteln
    rw [if_neg (by decide), hw]
    norm_num
  · intro hw
    unfold gewinnchance_ermitteln
    rw [if_neg (by decide), hw]
    norm_num

/-- Witness for C3: a December-25 request has probability 0; the spec's
example scenario gives 3/4 for a fresh user and 3/40 after a win. -/
theorem C3_witness :
    gewinnchance_ermitteln 1 ⟨12, 25⟩ 7 [] = 0 ∧
    gewinnchance_ermitteln 1 ⟨12, 5⟩ 15 [] = 3 / 4 ∧
    gewinnchance_ermitteln 1 ⟨12, 5⟩ 15
      ["1:Max - Tag 2 - Preis - OV L11 - 2023".data] = 3 / 40 := by
  refine ⟨(C3_gewinnchance 1 [] ⟨12, 25⟩ 7).1 (Or.inl (by decide)),
    (C3_gewinnchance 1 [] ⟨12, 5⟩ 15).2.2.1 (by decide),
    (C3_gewinnchance 1 ["1:Max - Tag 2 - Preis - OV L11 - 2023".data] ⟨12, 5⟩ 15).2.2.2
      (by decide)⟩

/-- C2: for days 1..23 the draw never returns the entry at index 0; if
only entry 0 has stock the draw returns none and the pool is unchanged;
on day 24 entry 0 is eligible. -/
theorem C2_reserved_first_entry (prizes : List Prize) (d choice : Nat) :
    (1 ≤ d → d ≤ 23 →
      (∀ i p, (reduce_prize prizes (some d) choice).1 = some (i, p) → i ≠ 0) ∧
      (∀ p0 rest, prizes = p0 :: rest → 0 < p0.remaining →
        (∀ p ∈ rest, p.remaining ≤ 0) →
        reduce_prize prizes (some d) choice = (none, prizes))) ∧
    (∀ p0 rest, prizes = p0 :: rest → 0 < p0.remaining →
      0 ∈ availableIdx prizes (some 24)) := by
  constructor
  · intro h1 h23
    have hd24 : ¬ d = 24 := by omega
    constructor
    · intro i p hres
      simp only [reduce_prize] at hres
      split at hres
      · simp at hres
      · split at hres
        · simp at hres
        · rename_i j hj
          split at hres
          · simp at hres
          · rename_i q hq
            simp only [Option.some.injEq, Prod.mk.injEq] at hres
            intro hi0
            have hji : j = 0 := by omega
            subst hji
            have hmem := List.getElem?_mem hj
            rw [availableIdx, List.mem_filter] at hmem
            have hpred := hmem.2
            rw [hq] at hpred
            simp [prizeAvailable, hd24] at hpred
    · intro p0 rest hp0 hrem hrest
      have havail : availableIdx prizes (some d) = [] := by
        rw [availableIdx, List.filter_eq_nil_iff]
        intro i hi
        subst hp0
        cases i with
        | zero => simp [prizeAvailable, hd24]
        | succ k =>
          rcases hq : rest[k]? with _ | q
          · simp [hq]
          · have hqr : q.remaining ≤ 0 := hrest q (List.getElem?_mem hq)
            simp [hq, prizeAvailable, hqr]
      simp [reduce_prize, havail]
  · intro p0 rest hp0 hrem
    subst hp0
    rw [availableIdx, List.mem_filter]
    refine ⟨by simp, ?_⟩
    have hr0 : ¬ p0.remaining ≤ 0 := by omega
    simp [prizeAvailable, hr0]

/-- Witness for C2: with only the reserved entry stocked, a day-5 draw
returns none and leaves the pool unchanged, while on day 24 entry 0 is
eligible. -/
theorem C2_witness :
    reduce_prize [⟨"H", 1, 1, "", ""⟩, ⟨"T", 0, 0, "", ""⟩] (some 5) 0 =
      (none, [⟨"H", 1, 1, "", ""⟩, ⟨"T", 0, 0, "", ""⟩]) ∧
    0 ∈ availableIdx [⟨"H", 1, 1, "", ""⟩, ⟨"T", 0, 0, "", ""⟩] (some 24) := by
  have h := C2_reserved_first_entry [⟨"H", 1, 1, "", ""⟩, ⟨"T", 0, 0, "", ""⟩] 5 0
  exact ⟨(h.1 (by decide) (by decide)).2 _ _ rfl (by decide) (by decide),
    h.2 _ _ rfl (by decide)⟩

/-! ## The pool invariant 0 ≤ remaining ≤ total -/

/-- The inventory invariant of a pool entry. -/
def PrizeInv (p : Prize) : Prop := 0 ≤ p.remaining ∧ p.remaining ≤ p.total

theorem load_prizes_inv (data : Option (List RawPrize)) :
    ∀ p ∈ load_prizes data, PrizeInv p := by
  intro p hp
  match data with
  | none =>
    simp [load_prizes, default_prizes] at hp
    subst hp
    exact ⟨by decide, by decide⟩
  | some entries =>
    simp only [load_prizes] at hp
    split at hp
    · simp [default_prizes] at hp
      subst hp
      exact ⟨by decide, by decide⟩
    · rcases List.mem_filterMap.mp hp with ⟨e, _, hne⟩
      simp only [normalizeRawPrize] at hne
      split at hne
      · have hpe := Option.some_inj.mp hne
        subst hpe
        exact ⟨by simp <;> omega, by simp <;> omega⟩
      · cases hne

theorem parsePrizeCore_inv {a b : List Char} {p : Prize}
    (h : parsePrizeCore a b = .ok (some p)) : PrizeInv p ∧ 0 < p.total := by
  simp only [parsePrizeCore] at h
  split at h
  · cases h
  · split at h
    · cases h
    · split at h
      · cases h
      · split at h
        · rename_i t r _ _
          split at h
          · cases h
          · rename_i htz
            have hpe := Option.some_inj.mp (Except.ok.inj h)
            subst hpe
            refine ⟨⟨by simp <;> omega, by simp <;> omega⟩, by simp <;> omega⟩
        · cases h

theorem parsePrizeLine_inv {l : List Char} {p : Prize}
    (h : parsePrizeLine l = .ok (some p)) : PrizeInv p ∧ 0 < p.total := by
  simp only [parsePrizeLine] at h
  split at h
  · cases h
  · split at h
    · cases h
    · exact parsePrizeCore_inv h

theorem parsePrizeLinesAux_inv :
    ∀ (lines : List (List Char)) (idx : Nat) (acc ps : List Prize),
    parsePrizeLinesAux idx lines acc = .ok ps → (∀ p ∈ acc, PrizeInv p) →
    ∀ p ∈ ps, PrizeInv p := by
  intro lines
  induction lines with
  | nil =>
    intro idx acc ps h hacc
    simp only [parsePrizeLinesAux] at h
    split at h
    · cases h
    · rcases Except.ok.inj h with rfl
      exact hacc
  | cons l rest ih =>
    intro idx acc ps h hacc
    simp only [parsePrizeLinesAux] at h
    split at h
    · cases h
    · exact ih _ _ _ h hacc
    · rename_i q hq
      refine ih _ _ _ h ?_
      intro p hp
      rcases List.mem_append.1 hp with hp | hp
      · exact hacc p hp
      · have : p = q := by simpa using hp
        subst this
        exact (parsePrizeLine_inv hq).1

theorem reduce_prize_cases (pool : List Prize) (day : Option Nat) (c : Nat) :
    (∀ i p, (reduce_prize pool day c).1 = some (i, p) →
      ∃ q, pool[i]? = some q ∧ 0 < q.remaining ∧
        p = { q with remaining := q.remaining - 1 } ∧
        (reduce_prize pool day c).2 = pool.set i p) ∧
    ((reduce_prize pool day c).1 = none → (reduce_prize pool day c).2 = pool) := by
  constructor
  · intro i p hres
    simp only [reduce_prize] at hres ⊢
    split at hres
    · simp at hres
    · split at hres
      · simp at hres
      · rename_i j hj
        split at hres
        · simp at hres
        · rename_i q hq
          simp only [Option.some.injEq, Prod.mk.injEq] at hres
          obtain ⟨rfl, rfl⟩ := hres
          have hmem := List.getElem?_mem hj
          rw [availableIdx, List.mem_filter] at hmem
          have hpred := hmem.2
          rw [hq] at hpred
          have hrem : 0 < q.remaining := by
            by_contra hr
            have hr' : q.remaining ≤ 0 := by omega
            simp [prizeAvailable, hr'] at hpred
          refine ⟨q, hq, hrem, rfl, ?_⟩
          rw [if_neg (by assumption)]
  · intro hres
    simp only [reduce_prize] at hres ⊢
    split at hres
    · rw [if_pos (by assumption)]
    · split at hres
      · rw [if_neg (by assumption)]
      · split at hres
        · rw [if_neg (by assumption)]
        · simp at hres

theorem reduce_prize_inv (pool : List Prize) (day : Option Nat) (c : Nat)
    (hinv : ∀ p ∈ pool, PrizeInv p) :
    ∀ q ∈ (reduce_prize pool day c).2, PrizeInv q := by
  intro q hq
  rcases hres : (reduce_prize pool day c).1 with _ | ⟨i, p⟩
  · rw [(reduce_prize_cases pool day c).2 hres] at hq
    exact hinv q hq
  · rcases (reduce_prize_cases pool day c).1 i p hres with ⟨w, hw, hwr, rfl, hset⟩
    rw [hset] at hq
    rcases List.mem_or_eq_of_mem_set hq with hq | hq
    · exact hinv q hq
    · subst hq
      obtain ⟨hw1, hw2⟩ := hinv w (List.getElem?_mem hw)
      exact ⟨by simp <;> omega, by simp <;> omega⟩

theorem releaseStep_inv (prizes0 pool : List Prize) (reward : UserReward)
    (hinv : ∀ p ∈ pool, PrizeInv p) :
    ∀ p ∈ releaseStep prizes0 pool reward, PrizeInv p := by
  intro p hp
  simp only [releaseStep] at hp
  split at hp
  · exact hinv p hp
  · split at hp
    · exact hinv p hp
    · rename_i q hq
      split at hp
      · rename_i hlt
        rcases List.mem_or_eq_of_mem_set hp with hp | hp
        · exact hinv p hp
        · subst hp
          obtain ⟨hq1, hq2⟩ := hinv q (List.getElem?_mem hq)
          exact ⟨by simp <;> omega, by simp <;> omega⟩
      · exact hinv p hp

theorem release_rewards_inv (rewards : List UserReward) (pool : List Prize)
    (hinv : ∀ p ∈ pool, PrizeInv p) :
    ∀ p ∈ release_rewards_for_user rewards pool, PrizeInv p := by
  unfold release_rewards_for_user
  split
  · exact hinv
  · split
    · exact hinv
    · have main : ∀ (rs : List UserReward) (cur : List Prize),
          (∀ p ∈ cur, PrizeInv p) → ∀ p ∈ rs.foldl (releaseStep pool) cur, PrizeInv p := by
        intro rs
        induction rs with
        | nil => intro cur h; simpa using h
        | cons r rest ih =>
          intro cur h
          rw [List.foldl_cons]
          exact ih _ (releaseStep_inv pool cur r h)
      exact main rewards pool hinv

/-- C7: every pool operation preserves 0 ≤ remaining ≤ total for every
entry: load_prizes and parse_prize_configuration clamp into [0, total],
reduce_prize decrements only an entry whose remaining is positive, and
release_rewards_for_user increments only below the total, capping
there. -/
theorem C7_pool_operations_invariant :
    (∀ (data : Option (List RawPrize)), ∀ p ∈ load_prizes data,
      0 ≤ p.remaining ∧ p.remaining ≤ p.total) ∧
    (∀ (text : String) (ps : List Prize),
      parse_prize_configuration text = .ok ps →
      ∀ p ∈ ps, 0 ≤ p.remaining ∧ p.remaining ≤ p.total) ∧
    (∀ (pool : List Prize) (day : Option Nat) (choice : Nat),
      (∀ p ∈ pool, 0 ≤ p.remaining ∧ p.remaining ≤ p.total) →
      (∀ q ∈ (reduce_prize pool day choice).2,
        0 ≤ q.remaining ∧ q.remaining ≤ q.total) ∧
      (∀ i p, (reduce_prize pool day choice).1 = some (i, p) →
        ∃ q, pool[i]? = some q ∧ 0 < q.remaining ∧
          p = { q with remaining := q.remaining - 1 })) ∧
    (∀ (rewards : List UserReward) (pool : List Prize),
      (∀ p ∈ pool, 0 ≤ p.remaining ∧ p.remaining ≤ p.total) →
      ∀ p ∈ release_rewards_for_user rewards pool,
        0 ≤ p.remaining ∧ p.remaining ≤ p.total) := by
  refine ⟨load_prizes_inv, ?_, ?_, release_rewards_inv⟩
  · intro text ps h
    exact parsePrizeLinesAux_inv _ 1 [] ps h (by simp)
  · intro pool day choice hinv
    refine ⟨reduce_prize_inv pool day choice hinv, ?_⟩
    intro i p hres
    rcases (reduce_prize_cases pool day choice).1 i p hres with ⟨q, hq, hqr, hpq, _⟩
    exact ⟨q, hq, hqr, hpq⟩

/-- Witness for C7: the invariant conclusions at a concrete pool with a
drawn prize and a released reward. -/
theorem C7_witness :
    (∀ p ∈ load_prizes none, 0 ≤ p.remaining ∧ p.remaining ≤ p.total) ∧
    (∀ q ∈ (reduce_prize [⟨"A", 2, 2, "", ""⟩] none 0).2,
      0 ≤ q.remaining ∧ q.remaining ≤ q.total) ∧
    (∀ p ∈ release_rewards_for_user [⟨"A", ""⟩] [⟨"A", 2, 1, "", ""⟩],
      0 ≤ p.remaining ∧ p.remaining ≤ p.total) := by
  refine ⟨C7_pool_operations_invariant.1 none, ?_, ?_⟩
  · exact (C7_pool_operations_invariant.2.2.1 [⟨"A", 2, 2, "", ""⟩] none 0 (by decide)).1
  · exact C7_pool_operations_invariant.2.2.2 [⟨"A", ""⟩] [⟨"A", 2, 1, "", ""⟩] (by decide)

/-- C5: if the user has already participated for the day when a
door-open for that day starts (calendar active, request for today's
door), the handler answers with the already-opened page and no state is
mutated: participation file, winners file, prize pool, reward store and
the in-memory door sets are all unchanged. -/
theorem C5_already_opened_no_mutation (env : DoorEnv) (user : DoorUser) (tag : Nat)
    (st : CalState) (hact : env.calendarActive = true) (hm : env.month = 12)
    (hd : env.day = tag)
    (hp : hat_teilgenommen user.id tag st.teilnehmer = true) :
    (oeffne_tuerchen env user tag st).1.kind = DoorKind.alreadyOpened ∧
    (oeffne_tuerchen env user tag st).1.content = msgAlready ∧
    (oeffne_tuerchen env user tag st).2.1 = st := by
  unfold oeffne_tuerchen
  rw [hact, if_neg (by simp), if_pos ⟨hm, hd⟩, if_pos hp]
  exact ⟨rfl, rfl, rfl⟩

/-- Witness for C5 at a concrete state whose participation file already
holds the line for (user 1, door 5). -/
theorem C5_witness :
    (oeffne_tuerchen ⟨true, 12, 5, 2023, 12, 0, 0, true⟩ ⟨1, "Max"⟩ 5
      ⟨["1:Max-5".data], [], [⟨"A", 2, 2, "", ""⟩], [], []⟩).1.kind =
        DoorKind.alreadyOpened ∧
    (oeffne_tuerchen ⟨true, 12, 5, 2023, 12, 0, 0, true⟩ ⟨1, "Max"⟩ 5
      ⟨["1:Max-5".data], [], [⟨"A", 2, 2, "", ""⟩], [], []⟩).2.1 =
      ⟨["1:Max-5".data], [], [⟨"A", 2, 2, "", ""⟩], [], []⟩ := by
  have h := C5_already_opened_no_mutation ⟨true, 12, 5, 2023, 12, 0, 0, true⟩ ⟨1, "Max"⟩ 5
    ⟨["1:Max-5".data], [], [⟨"A", 2, 2, "", ""⟩], [], []⟩ rfl rfl rfl (by decide)
  exact ⟨h.1, h.2.2⟩

/-- C6: the gate checks pass exactly when the calendar is active and
today is December `tag`; otherwise the user gets the calendar-inactive
or not-yet-available page and the state is untouched. -/
theorem C6_gate_checks (env : DoorEnv) (user : DoorUser) (tag : Nat) (st : CalState) :
    ((oeffne_tuerchen env user tag st).1.kind = DoorKind.inactive ↔
      env.calendarActive = false) ∧
    ((oeffne_tuerchen env user tag st).1.kind = DoorKind.notYet ↔
      (env.calendarActive = true ∧ ¬(env.month = 12 ∧ env.day = tag))) ∧
    (((oeffne_tuerchen env user tag st).1.kind = DoorKind.inactive ∨
      (oeffne_tuerchen env user tag st).1.kind = DoorKind.notYet) →
      (oeffne_tuerchen env user tag st).2.1 = st) := by
  simp only [oeffne_tuerchen]
  repeat' split
  all_goals simp_all

/-- Witness for C6: an inactive calendar answers with the inactive page
and unchanged state. -/
theorem C6_witness :
    (oeffne_tuerchen ⟨false, 12, 5, 2023, 12, 0, 0, true⟩ ⟨1, "Max"⟩ 5
      ⟨[], [], [], [], []⟩).1.kind = DoorKind.inactive ∧
    (oeffne_tuerchen ⟨false, 12, 5, 2023, 12, 0, 0, true⟩ ⟨1, "Max"⟩ 5
      ⟨[], [], [], [], []⟩).2.1 = ⟨[], [], [], [], []⟩ := by
  have h := C6_gate_checks ⟨false, 12, 5, 2023, 12, 0, 0, true⟩ ⟨1, "Max"⟩ 5
    ⟨[], [], [], [], []⟩
  have hk := h.1.mpr rfl
  exact ⟨hk, h.2.2 (Or.inl hk)⟩

/-- C4: in every door-open execution, whenever the pool stats are read
(and a fortiori whenever the odds are evaluated or a prize drawn), the
participation write has already happened: the event trace begins with
writeParticipation immediately followed by readPool. -/
theorem C4_participation_written_first (env : DoorEnv) (user : DoorUser) (tag : Nat)
    (st : CalState) :
    (DoorEvent.readPool ∈ (oeffne_tuerchen env user tag st).2.2 →
      ((oeffne_tuerchen env user tag st).2.2.take 2 =
        [DoorEvent.writeParticipation, DoorEvent.readPool])) ∧
    (DoorEvent.evalOdds ∈ (oeffne_tuerchen env user tag st).2.2 →
      ((oeffne_tuerchen env user tag st).2.2.take 3 =
        [DoorEvent.writeParticipation, DoorEvent.readPool, DoorEvent.evalOdds])) ∧
    (DoorEvent.drawPrize ∈ (oeffne_tuerchen env user tag st).2.2 →
      ((oeffne_tuerchen env user tag st).2.2.take 4 =
        [DoorEvent.writeParticipation, DoorEvent.readPool, DoorEvent.evalOdds,
          DoorEvent.drawPrize])) := by
  simp only [oeffne_tuerchen]
  repeat' split
  all_goals refine ⟨?_, ?_, ?_⟩ <;> intro hmem <;> simp_all

/-- Witness for C4: a concrete lost draw whose trace contains the pool
read right after the participation write. -/
theorem C4_witness :
    DoorEvent.readPool ∈ (oeffne_tuerchen ⟨true, 12, 5, 2023, 0, 1, 0, true⟩ ⟨1, "Max"⟩ 5
      ⟨[], [], [⟨"A", 2, 2, "", ""⟩], [], []⟩).2.2 ∧
    ((oeffne_tuerchen ⟨true, 12, 5, 2023, 0, 1, 0, true⟩ ⟨1, "Max"⟩ 5
      ⟨[], [], [⟨"A", 2, 2, "", ""⟩], [], []⟩).2.2.take 2 =
      [DoorEvent.writeParticipation, DoorEvent.readPool]) := by
  have hmem : DoorEvent.readPool ∈ (oeffne_tuerchen ⟨true, 12, 5, 2023, 0, 1, 0, true⟩
      ⟨1, "Max"⟩ 5 ⟨[], [], [⟨"A", 2, 2, "", ""⟩], [], []⟩).2.2 := by
    have hlost : oeffne_tuerchen ⟨true, 12, 5, 2023, 0, 1, 0, true⟩ ⟨1, "Max"⟩ 5
        ⟨[], [], [⟨"A", 2, 2, "", ""⟩], [], []⟩ =
        (⟨200, DoorKind.lost,
          ⟨("Du hattest heute leider kein Glück, ".data) ++ (pyEscape "Max").data ++
            (". Versuche es morgen noch einmal!".data)⟩⟩,
          ⟨["1:Max-5".data], [], [⟨"A", 2, 2, "", ""⟩], [],
            [(5, intToChars 1)]⟩,
          [DoorEvent.writeParticipation, DoorEvent.readPool, DoorEvent.evalOdds]) := by
      unfold oeffne_tuerchen
      rw [if_neg (by decide), if_pos (by exact ⟨rfl, rfl⟩), if_neg (by decide),
        if_neg (by decide), if_neg (by decide)]
      rfl
    rw [hlost]
    decide
  exact ⟨hmem, (C4_participation_written_first ⟨true, 12, 5, 2023, 0, 1, 0, true⟩
    ⟨1, "Max"⟩ 5 ⟨[], [], [⟨"A", 2, 2, "", ""⟩], [], []⟩).1 hmem⟩

/-- The win branch of the handler, fully evaluated: under the gate,
participation, stock, odds and draw conditions the handler returns the
congratulation page with status 200 and the state updated through
speichere_gewinner and record_user_reward — the latter's outcome
(env.dbOk) influences nothing but the reward store. -/
theorem oeffne_tuerchen_win (env : DoorEnv) (user : DoorUser) (tag : Nat) (st : CalState)
    (hact : env.calendarActive = true) (hm : env.month = 12) (hd : env.day = tag)
    (hp : hat_teilgenommen user.id tag st.teilnehmer = false)
    (hrem : ¬ (get_prize_stats st.prizes).2.1 ≤ 0)
    (hwin : env.hour ∈ gewinn_zeiten ∧ env.rand < gewinnchance_ermitteln user.id
      ⟨env.month, env.day⟩ (get_prize_stats st.prizes).2.1 st.gewinner)
    (i : Nat) (p : Prize)
    (hdraw : (reduce_prize st.prizes (some env.day) env.drawChoice).1 = some (i, p))
    (hname : ¬ p.name = "") :
    oeffne_tuerchen env user tag st =
      (⟨200, DoorKind.won,
        winContent (pyEscape user.display_name) (pyEscape p.name).data
          ⟨pyStripChars p.sponsor.data⟩ ⟨pyStripChars p.sponsor_link.data⟩
          (pyEscape ⟨("user_".data) ++ intToChars user.id ++ '_' :: natToChars tag ++
            (".png".data)⟩).data⟩,
       ⟨speichere_teilnehmer user.id user.display_name.data tag st.teilnehmer,
        speichere_gewinner user.id user.display_name.data tag p.name env.year
          ⟨pyStripChars p.sponsor.data⟩ st.gewinner,
        (reduce_prize st.prizes (some env.day) env.drawChoice).2,
        record_user_reward st.rewards user.id tag p.name ⟨pyStripChars p.sponsor.data⟩
          ⟨pyStripChars p.sponsor_link.data⟩
          ⟨("user_".data) ++ intToChars user.id ++ '_' :: natToChars tag ++ (".png".data)⟩
          ⟨natToChars tag ++ '-' :: user.display_name.data ++ '-' :: intToChars user.id ++
            '-' :: p.name.data ++ ("-OV L11-".data) ++ intToChars env.year⟩ env.dbOk,
        st.tuerchen_status ++ [(tag, intToChars user.id)]⟩,
       [DoorEvent.writeParticipation, DoorEvent.readPool, DoorEvent.evalOdds,
        DoorEvent.drawPrize, DoorEvent.writeWinner, DoorEvent.recordReward]) := by
  simp only [oeffne_tuerchen]
  rw [hact]
  rw [if_neg (by simp)]
  rw [if_pos ⟨hm, hd⟩]
  rw [hp]
  rw [if_neg (by simp)]
  rw [if_neg hrem]
  rw [if_pos hwin]
  rw [hdraw]
  simp [hname]

/-- C1 (code bug): on a winning draw whose reward INSERT fails
(env.dbOk = false — record_user_reward swallows the DatabaseError and
returns nothing, and oeffne_tuerchen never checks it), the handler still
answers with status 200, the won outcome, and a page starting with the
congratulation text "Glückwunsch, ", while the reward store stays empty
— the prize was already decremented.  The repository's own tests
(test_oeffne_tuerchen_failures.py) instead demand a 500 error page
without the congratulation text, as the claim states. -/
theorem C1_win_record_failure_divergence :
    (oeffne_tuerchen ⟨true, 12, 5, 2023, 12, 0, 0, false⟩ ⟨1, "Tester"⟩ 5
      ⟨[], [], [⟨"Hauptpreis", 1, 1, "", ""⟩, ⟨"Testpreis", 2, 2, "", ""⟩], [], []⟩).1.status
        = 200 ∧
    (oeffne_tuerchen ⟨true, 12, 5, 2023, 12, 0, 0, false⟩ ⟨1, "Tester"⟩ 5
      ⟨[], [], [⟨"Hauptpreis", 1, 1, "", ""⟩, ⟨"Testpreis", 2, 2, "", ""⟩], [], []⟩).1.kind
        = DoorKind.won ∧
    (∃ rest : List Char,
      (oeffne_tuerchen ⟨true, 12, 5, 2023, 12, 0, 0, false⟩ ⟨1, "Tester"⟩ 5
        ⟨[], [], [⟨"Hauptpreis", 1, 1, "", ""⟩, ⟨"Testpreis", 2, 2, "", ""⟩], [], []⟩).1.content
          = ⟨"Glückwunsch, ".data ++ rest⟩) ∧
    (oeffne_tuerchen ⟨true, 12, 5, 2023, 12, 0, 0, false⟩ ⟨1, "Tester"⟩ 5
      ⟨[], [], [⟨"Hauptpreis", 1, 1, "", ""⟩, ⟨"Testpreis", 2, 2, "", ""⟩], [], []⟩).2.1.rewards
        = [] := by
  have hodds : (⟨true, 12, 5, 2023, 12, 0, 0, false⟩ : DoorEnv).rand <
      gewinnchance_ermitteln (⟨1, "Tester"⟩ : DoorUser).id
        ⟨(⟨true, 12, 5, 2023, 12, 0, 0, false⟩ : DoorEnv).month,
         (⟨true, 12, 5, 2023, 12, 0, 0, false⟩ : DoorEnv).day⟩
        (get_prize_stats (⟨[], [], [⟨"Hauptpreis", 1, 1, "", ""⟩,
          ⟨"Testpreis", 2, 2, "", ""⟩], [], []⟩ : CalState).prizes).2.1
        (⟨[], [], [⟨"Hauptpreis", 1, 1, "", ""⟩, ⟨"Testpreis", 2, 2, "", ""⟩], [], []⟩
          : CalState).gewinner := by
    show (0 : ℚ) < gewinnchance_ermitteln 1 ⟨12, 5⟩ 3 []
    unfold gewinnchance_ermitteln
    rw [if_neg (by decide)]
    rw [show hat_gewonnen 1 [] = false from rfl]
    norm_num
  have h := oeffne_tuerchen_win ⟨true, 12, 5, 2023, 12, 0, 0, false⟩ ⟨1, "Tester"⟩ 5
    ⟨[], [], [⟨"Hauptpreis", 1, 1, "", ""⟩, ⟨"Testpreis", 2, 2, "", ""⟩], [], []⟩
    rfl rfl rfl (by decide) (by decide) ⟨by decide, hodds⟩
    1 ⟨"Testpreis", 2, 1, "", ""⟩ (by decide) (by decide)
  rw [h]
  exact ⟨rfl, rfl, ⟨_, rfl⟩, by decide⟩

/-! ## Error behaviour of parse_prize_configuration -/

theorem parsePrizeLinesAux_error :
    ∀ (pre : List (List Char)) (idx : Nat) (acc : List Prize) (l : List Char)
      (rest : List (List Char)) (k : LineErrKind),
    (∀ x ∈ pre, ∀ k2, parsePrizeLine x ≠ .error k2) → parsePrizeLine l = .error k →
    parsePrizeLinesAux idx (pre ++ l :: rest) acc =
      .error (.lineError k (idx + pre.length)) := by
  intro pre
  induction pre with
  | nil =>
    intro idx acc l rest k _ hl
    simp [parsePrizeLinesAux, hl]
  | cons x pre ih =>
    intro idx acc l rest k hpre hl
    rw [List.cons_append]
    cases hx : parsePrizeLine x with
    | error k2 => exact absurd hx (hpre x (by simp) k2)
    | ok po =>
      cases po with
      | none =>
        rw [parsePrizeLinesAux, hx]
        rw [ih (idx + 1) acc l rest k (fun y hy => hpre y (by simp [hy])) hl]
        congr 1
        simp
        omega
      | some p =>
        rw [parsePrizeLinesAux, hx]
        change parsePrizeLinesAux (idx + 1) (pre ++ l :: rest) (acc ++ [p]) = _
        rw [ih (idx + 1) (acc ++ [p]) l rest k (fun y hy => hpre y (by simp [hy])) hl]
        congr 1
        simp
        omega

theorem parsePrizeLinesAux_all_skipped :
    ∀ (lines : List (List Char)) (idx : Nat) (acc : List Prize),
    (∀ x ∈ lines, parsePrizeLine x = .ok none) →
    parsePrizeLinesAux idx lines acc =
      (if acc = [] then .error .noPrizes else .ok acc) := by
  intro lines
  induction lines with
  | nil => intro idx acc _; rfl
  | cons x rest ih =>
    intro idx acc h
    rw [parsePrizeLinesAux, h x (by simp)]
    exact ih (idx + 1) acc (fun y hy => h y (by simp [hy]))

theorem parsePrizeLine_badFormat {l : List Char} (h1 : pyStripChars l ≠ [])
    (h2 : '=' ∉ pyStripChars l) : parsePrizeLine l = .error .badFormat := by
  rw [parsePrizeLine, if_neg h1, rsplitOnceChar_not_mem h2]

theorem parsePrizeLine_missingName {l np ap : List Char} (h1 : pyStripChars l ≠ [])
    (hsp : rsplitOnceChar '=' (pyStripChars l) = some (np, ap))
    (hn : pyStripChars np = []) : parsePrizeLine l = .error .missingName := by
  rw [parsePrizeLine, if_neg h1, hsp]
  simp [parsePrizeCore, hn]

theorem parsePrizeLine_missingAmount {l np ap : List Char} (h1 : pyStripChars l ≠ [])
    (hsp : rsplitOnceChar '=' (pyStripChars l) = some (np, ap))
    (hn : pyStripChars np ≠ []) (ha : pyStripChars ap = []) :
    parsePrizeLine l = .error .missingAmount := by
  rw [parsePrizeLine, if_neg h1, hsp]
  simp [parsePrizeCore, hn, ha]

theorem parsePrizeLine_invalidAmount {l np ap : List Char} (h1 : pyStripChars l ≠ [])
    (hsp : rsplitOnceChar '=' (pyStripChars l) = some (np, ap))
    (hn : pyStripChars np ≠ []) (ha : pyStripChars ap ≠ [])
    (hbar : '|' ∉ pyStripChars np) (hslash : '/' ∉ pyStripChars ap)
    (hnum : pyParseInt (pyStripChars ap) = none) :
    parsePrizeLine l = .error .invalidAmount := by
  rw [parsePrizeLine, if_neg h1, hsp]
  simp [parsePrizeCore, hn, ha, splitFirstChar_not_mem hbar, splitFirstChar_not_mem hslash,
    hnum]

/-- C9: parse_prize_configuration reports the 1-based index of the first
malformed line (missing '=', empty name, missing or non-numeric count),
raises the no-prizes error when every line is blank or skipped, and the
admin update applies all entries or none: on any parse error the stored
pool is untouched and the error flag set. -/
theorem C9_parse_errors_atomic :
    (∀ (s : String) (pre : List (List Char)) (l : List Char)
        (rest : List (List Char)) (k : LineErrKind),
      pySplitlinesChars s.data = pre ++ l :: rest →
      (∀ x ∈ pre, ∀ k2, parsePrizeLine x ≠ .error k2) →
      parsePrizeLine l = .error k →
      parse_prize_configuration s = .error (.lineError k (pre.length + 1))) ∧
    (∀ s : String, (∀ x ∈ pySplitlinesChars s.data, parsePrizeLine x = .ok none) →
      parse_prize_configuration s = .error .noPrizes) ∧
    (∀ l : List Char, pyStripChars l ≠ [] →
      ('=' ∉ pyStripChars l → parsePrizeLine l = .error .badFormat) ∧
      (∀ np ap, rsplitOnceChar '=' (pyStripChars l) = some (np, ap) →
        (pyStripChars np = [] → parsePrizeLine l = .error .missingName) ∧
        (pyStripChars np ≠ [] → pyStripChars ap = [] →
          parsePrizeLine l = .error .missingAmount) ∧
        (pyStripChars np ≠ [] → pyStripChars ap ≠ [] → '|' ∉ pyStripChars np →
          '/' ∉ pyStripChars ap → pyParseInt (pyStripChars ap) = none →
          parsePrizeLine l = .error .invalidAmount))) ∧
    (∀ (raw : String) (stored : List Prize) (e : PrizeParseError),
      parse_prize_configuration raw = .error e →
      admin_update_prizes raw stored = (stored, true)) := by
  refine ⟨?_, ?_, ?_, ?_⟩
  · intro s pre l rest k hsplit hpre hl
    rw [parse_prize_configuration, parseConfigLines, hsplit]
    rw [parsePrizeLinesAux_error pre 1 [] l rest k hpre hl, Nat.add_comm 1 pre.length]
  · intro s h
    rw [parse_prize_configuration, parseConfigLines,
      parsePrizeLinesAux_all_skipped _ 1 [] h]
    rfl
  · intro l h1
    refine ⟨fun h2 => parsePrizeLine_badFormat h1 h2, ?_⟩
    intro np ap hsp
    exact ⟨fun hn => parsePrizeLine_missingName h1 hsp hn,
      fun hn ha => parsePrizeLine_missingAmount h1 hsp hn ha,
      fun hn ha hbar hslash hnum =>
        parsePrizeLine_invalidAmount h1 hsp hn ha hbar hslash hnum⟩
  · intro raw stored e he
    rw [admin_update_prizes, he]

/-- Witness for C9: the text "Preis=1\nabc" fails on its second line
with the line-indexed format error, and the admin update keeps the
stored pool. -/
theorem C9_witness :
    parse_prize_configuration "Preis=1\nabc" =
      .error (.lineError .badFormat 2) ∧
    admin_update_prizes "Preis=1\nabc" [⟨"Alt", 3, 2, "", ""⟩] =
      ([⟨"Alt", 3, 2, "", ""⟩], true) := by
  have hok : parsePrizeLine "Preis=1".data = .ok (some ⟨"Preis", 1, 1, "", ""⟩) := by
    rfl
  have herr : parse_prize_configuration "Preis=1\nabc" =
      .error (.lineError .badFormat 2) := by
    refine C9_parse_errors_atomic.1 "Preis=1\nabc" ["Preis=1".data] "abc".data [] .badFormat
      (by decide) ?_ (by rfl)
    intro x hx k2 hcon
    have hxe : x = "Preis=1".data := by simpa using hx
    subst hxe
    rw [hok] at hcon
    cases hcon
  exact ⟨herr, C9_parse_errors_atomic.2.2.2 "Preis=1\nabc" [⟨"Alt", 3, 2, "", ""⟩]
    (.lineError .badFormat 2) herr⟩

/-! ## Behaviour of the sponsor extraction on well-formed segments -/

theorem rfindBefore_not_mem {c : Char} {l : List Char} (h : c ∉ l) :
    ∀ pos, rfindBefore l c pos = none := by
  intro pos
  induction pos with
  | zero => rfl
  | succ p ih =>
    rw [rfindBefore]
    rw [if_neg ?_, ih]
    intro hc
    exact h (List.getElem?_mem hc)

theorem rfindBefore_found {c : Char} (a b : List Char) (h : c ∉ b) :
    ∀ k, k ≤ b.length →
    rfindBefore (a ++ c :: b) c (a.length + 1 + k) = some a.length := by
  intro k
  induction k with
  | zero =>
    intro _
    rw [rfindBefore]
    rw [if_pos]
    rw [List.getElem?_append_right (Nat.le_refl a.length)]
    simp
  | succ k ih =>
    intro hk
    rw [show a.length + 1 + (k + 1) = (a.length + 1 + k) + 1 by omega, rfindBefore]
    rw [if_neg ?_, ih (by omega)]
    intro hc
    rw [List.getElem?_append_right (by omega)] at hc
    have : (c :: b)[a.length + 1 + k - a.length]? = (c :: b)[k + 1]? := by
      congr 1
      omega
    rw [this] at hc
    simp at hc
    exact h (List.getElem?_mem hc)

theorem startsWithChars_append_self (p t : List Char) :
    startsWithChars p (p ++ t) = true := by
  induction p with
  | nil => rfl
  | cons c rest ih => simp [startsWithChars, ih]

theorem startsWithChars_exists {p l : List Char} (h : startsWithChars p l = true) :
    ∃ t, l = p ++ t := by
  induction p generalizing l with
  | nil => exact ⟨l, rfl⟩
  | cons c rest ih =>
    cases l with
    | nil => cases h
    | cons x xs =>
      rw [startsWithChars, Bool.and_eq_true, beq_iff_eq] at h
      obtain ⟨rfl, h2⟩ := h
      obtain ⟨t, rfl⟩ := ih h2
      exact ⟨t, rfl⟩

theorem startsWithChars_toLower_http {l : List Char}
    (h : startsWithChars "http://".data l = true ∨
         startsWithChars "https://".data l = true) :
    (startsWithChars "http://".data (toLowerChars l) ||
     startsWithChars "https://".data (toLowerChars l)) = true := by
  rcases h with h | h
  · obtain ⟨t, rfl⟩ := startsWithChars_exists h
    rw [toLowerChars, List.map_append]
    rw [show List.map Char.toLower "http://".data = "http://".data from by decide]
    rw [Bool.or_eq_true]
    exact Or.inl (startsWithChars_append_self _ _)
  · obtain ⟨t, rfl⟩ := startsWithChars_exists h
    rw [toLowerChars, List.map_append]
    rw [show List.map Char.toLower "https://".data = "https://".data from by decide]
    rw [Bool.or_eq_true]
    exact Or.inr (startsWithChars_append_self _ _)

theorem extractSponsorChars_no_paren {S : List Char} (hS : S ≠ [])
    (htr : TrimmedChars S) (hp : '(' ∉ S) :
    extractSponsorChars S = (S, []) := by
  rw [extractSponsorChars]
  rw [pyStripChars_eq_self htr]
  rw [if_neg hS]
  rcases hlen : S.length with _ | n
  · exact absurd (List.length_eq_zero.mp hlen) hS
  · rw [extractLoop, if_neg (by omega), rfindBefore_not_mem hp]

theorem extractSponsorChars_with_link {S L : List Char} (hS : S ≠ [])
    (hStr : TrimmedChars S) (hSp : '(' ∉ S)
    (hL : L ≠ []) (hLtr : TrimmedChars L) (hLp : '(' ∉ L) (hLq : ')' ∉ L)
    (hhttp : startsWithChars "http://".data L = true ∨
             startsWithChars "https://".data L = true) :
    extractSponsorChars (S ++ ' ' :: '(' :: (L ++ [')'])) = (S, L) := by
  have hrest_trim : TrimmedChars (S ++ ' ' :: '(' :: (L ++ [')'])) := by
    constructor
    · exact nonSpaceHead_append_left hS hStr.1
    · intro c hc
      rw [show S ++ ' ' :: '(' :: (L ++ [')']) =
          (S ++ ' ' :: '(' :: L) ++ [')'] by simp] at hc
      rw [getLast?_append_right _ _ (by simp)] at hc
      simp at hc
      subst hc
      rfl
  rw [extractSponsorChars]
  rw [pyStripChars_eq_self hrest_trim]
  rw [if_neg (by simp [hS])]
  rw [extractLoop]
  rw [if_neg (by simp [hS])]
  have hfind : rfindBefore (S ++ ' ' :: '(' :: (L ++ [')'])) '('
      ((S ++ ' ' :: '(' :: (L ++ [')'])).length) = some (S.length + 1) := by
    have hsplit : S ++ ' ' :: '(' :: (L ++ [')']) =
        (S ++ [' ']) ++ '(' :: (L ++ [')']) := by simp
    have hnp : '(' ∉ L ++ [')'] := by
      intro hm
      rcases List.mem_append.1 hm with hm | hm
      · exact hLp hm
      · simp at hm
    have := rfindBefore_found (S ++ [' ']) (L ++ [')']) hnp (L ++ [')']).length
      (Nat.le_refl _)
    rw [← hsplit] at this
    have hlen : (S ++ ' ' :: '(' :: (L ++ [')'])).length =
        (S ++ [' ']).length + 1 + (L ++ [')']).length := by
      simp only [List.length_append, List.length_cons, List.length_nil]
      omega
    rw [hlen, this]
    simp
  have hdrop : (S ++ ' ' :: '(' :: (L ++ [')'])).drop (S.length + 1 + 1) =
      L ++ [')'] := by
    rw [show S ++ ' ' :: '(' :: (L ++ [')']) =
        (S ++ [' ', '(']) ++ (L ++ [')']) by simp]
    rw [show S.length + 1 + 1 = (S ++ [' ', '(']).length by simp]
    exact List.drop_left _ _
  have hrem_trim : TrimmedChars (L ++ [')']) := by
    constructor
    · exact nonSpaceHead_append_left hL hLtr.1
    · intro c hc
      rw [getLast?_append_right _ _ (by simp)] at hc
      simp at hc
      subst hc
      rfl
  rw [hfind]
  simp only [hdrop]
  rw [pyStripChars_eq_self hrem_trim]
  rw [if_pos (by rw [getLast?_append_right _ _ (by simp)]; rfl)]
  rw [show (L ++ [')']).dropLast = L from by simp]
  rw [pyStripChars_eq_self hLtr]
  rw [if_pos ⟨hL, startsWithChars_toLower_http hhttp⟩]
  have htake : (S ++ ' ' :: '(' :: (L ++ [')'])).take (S.length + 1) = S ++ [' '] := by
    rw [show S ++ ' ' :: '(' :: (L ++ [')']) =
        (S ++ [' ']) ++ '(' :: (L ++ [')']) by simp]
    rw [show S.length + 1 = (S ++ [' ']).length by simp]
    exact List.take_left _ _
  rw [htake, trimR_append_space (by rfl), trimR_eq_self hStr.2]

/-! ## Round-trip of format_prize_lines and parse_prize_configuration -/

/-- Validity of a pool entry for the configuration round-trip: a
nonempty trimmed name with no newline and no '|' (the sponsor
separator), counts satisfying 0 < total and 0 ≤ remaining ≤ total, a
trimmed sponsor with no newline and no '(' (the link opener), and a
trimmed link with no newline and no parentheses that, when present,
comes with a sponsor and starts with http:// or https://. -/
structure ValidPrizeEntry (p : Prize) : Prop where
  name_ne : p.name.data ≠ []
  name_tr : TrimmedChars p.name.data
  name_lf : '\n' ∉ p.name.data
  name_cr : '\r' ∉ p.name.data
  name_bar : '|' ∉ p.name.data
  total_pos : 0 < p.total
  rem_nonneg : 0 ≤ p.remaining
  rem_le : p.remaining ≤ p.total
  spon_tr : TrimmedChars p.sponsor.data
  spon_lf : '\n' ∉ p.sponsor.data
  spon_cr : '\r' ∉ p.sponsor.data
  spon_paren : '(' ∉ p.sponsor.data
  link_tr : TrimmedChars p.sponsor_link.data
  link_lf : '\n' ∉ p.sponsor_link.data
  link_cr : '\r' ∉ p.sponsor_link.data
  link_paren : '(' ∉ p.sponsor_link.data
  link_cparen : ')' ∉ p.sponsor_link.data
  link_form : p.sponsor_link.data ≠ [] → p.sponsor.data ≠ [] ∧
    (startsWithChars "http://".data p.sponsor_link.data = true ∨
     startsWithChars "https://".data p.sponsor_link.data = true)

/-- The part of a formatted line before the '='. -/
def nameSegChars (p : Prize) : List Char :=
  let sponsor := pyStripChars p.sponsor.data
  let sponsor_link := pyStripChars p.sponsor_link.data
  if sponsor = [] then p.name.data
  else if sponsor_link = [] then p.name.data ++ (" | ".data) ++ sponsor
  else p.name.data ++ (" | ".data) ++ sponsor ++ (" (".data) ++ sponsor_link ++ [')']

/-- The part of a formatted line after the '='. -/
def amountChars (p : Prize) : List Char :=
  if p.remaining ≠ p.total then intToChars p.total ++ '/' :: intToChars p.remaining
  else intToChars p.total

theorem formatPrizeLineChars_shape (p : Prize) :
    formatPrizeLineChars p = nameSegChars p ++ '=' :: amountChars p := by
  rw [formatPrizeLineChars, nameSegChars, amountChars]
  split <;> split <;> (try split) <;> simp

theorem pyIsSpace_false_of_ge {c : Char} (h : 33 ≤ c.toNat) : pyIsSpace c = false := by
  simp [pyIsSpace]
  omega

theorem amountChars_range {p : Prize} (ht : 0 < p.total) (hr : 0 ≤ p.remaining) :
    ∀ c ∈ amountChars p, 47 ≤ c.toNat ∧ c.toNat ≤ 57 := by
  intro c hc
  rw [amountChars] at hc
  split at hc
  · rw [intToChars_nonneg (by omega), intToChars_nonneg (by omega)] at hc
    rcases List.mem_append.1 hc with h | h
    · have := natToChars_digits _ c h
      omega
    · rcases List.mem_cons.1 h with h | h
      · subst h
        exact ⟨by decide, by decide⟩
      · have := natToChars_digits _ c h
        omega
  · rw [intToChars_nonneg (by omega)] at hc
    have := natToChars_digits _ c hc
    omega

theorem amountChars_ne_nil {p : Prize} (ht : 0 < p.total) : amountChars p ≠ [] := by
  rw [amountChars]
  split
  · rw [intToChars_nonneg (by omega)]
    simp [natToChars_ne_nil]
  · rw [intToChars_nonneg (by omega)]
    exact natToChars_ne_nil _

theorem amountChars_trimmed {p : Prize} (ht : 0 < p.total) (hr : 0 ≤ p.remaining) :
    TrimmedChars (amountChars p) := by
  constructor
  · intro c hc
    have := amountChars_range ht hr c (mem_of_head?_eq hc)
    exact pyIsSpace_false_of_ge (by omega)
  · intro c hc
    have := amountChars_range ht hr c (mem_of_getLast?_eq hc)
    exact pyIsSpace_false_of_ge (by omega)

theorem eq_not_mem_amountChars {p : Prize} (ht : 0 < p.total) (hr : 0 ≤ p.remaining) :
    '=' ∉ amountChars p := by
  intro hm
  have := amountChars_range ht hr '=' hm
  revert this
  decide

theorem slash_not_mem_intToChars {i : Int} (h : 0 ≤ i) : '/' ∉ intToChars i := by
  rw [intToChars_nonneg h]
  exact not_mem_natToChars _ (by left; decide)

theorem nameSegChars_ne_nil {p : Prize} (hv : ValidPrizeEntry p) :
    nameSegChars p ≠ [] := by
  rw [nameSegChars]
  split
  · exact hv.name_ne
  · split <;> simp [hv.name_ne]

theorem nameSegChars_trimmed {p : Prize} (hv : ValidPrizeEntry p) :
    TrimmedChars (nameSegChars p) := by
  rw [nameSegChars, pyStripChars_eq_self hv.spon_tr, pyStripChars_eq_self hv.link_tr]
  split
  · exact hv.name_tr
  · split
    · rename_i hS _
      constructor
      · exact nonSpaceHead_append_left (by simp [hv.name_ne])
          (nonSpaceHead_append_left hv.name_ne hv.name_tr.1)
      · exact nonSpaceLast_append_right hS hv.spon_tr.2
    · constructor
      · exact nonSpaceHead_append_left (by simp [hv.name_ne])
          (nonSpaceHead_append_left (by simp [hv.name_ne])
            (nonSpaceHead_append_left (by simp [hv.name_ne])
              (nonSpaceHead_append_left (by simp [hv.name_ne])
                (nonSpaceHead_append_left hv.name_ne hv.name_tr.1))))
      · intro c hc
        rw [List.getLast?_concat] at hc
        simp at hc
        subst hc
        rfl

theorem nameSegChars_not_mem {p : Prize} (hv : ValidPrizeEntry p) {c : Char}
    (hcn : c ∉ p.name.data) (hcs : c ∉ p.sponsor.data) (hcl : c ∉ p.sponsor_link.data)
    (hc1 : c ≠ ' ') (hc2 : c ≠ '|') (hc3 : c ≠ '(') (hc4 : c ≠ ')') :
    c ∉ nameSegChars p := by
  rw [nameSegChars, pyStripChars_eq_self hv.spon_tr, pyStripChars_eq_self hv.link_tr]
  intro hm
  split at hm
  · exact hcn hm
  · split at hm
    · rcases List.mem_append.1 hm with hm | hm
      · rcases List.mem_append.1 hm with hm | hm
        · exact hcn hm
        · simp at hm
          rcases hm with h | h | h
          · exact hc1 h
          · exact hc2 h
          · exact hc1 h
      · exact hcs hm
    · rcases List.mem_append.1 hm with hm | hm
      · rcases List.mem_append.1 hm with hm | hm
        · rcases List.mem_append.1 hm with hm | hm
          · rcases List.mem_append.1 hm with hm | hm
            · rcases List.mem_append.1 hm with hm | hm
              · exact hcn hm
              · simp at hm
                rcases hm with h | h | h
                · exact hc1 h
                · exact hc2 h
                · exact hc1 h
            · exact hcs hm
          · simp at hm
            rcases hm with h | h
            · exact hc1 h
            · exact hc3 h
        · exact hcl hm
      · simp at hm
        exact hc4 hm

theorem nameSeg_parts {p : Prize} (hv : ValidPrizeEntry p) :
    (match splitFirstChar '|' (nameSegChars p) with
     | some (n, sp) => (pyStripChars n, extractSponsorChars (pyStripChars sp))
     | none => (nameSegChars p, ([], []))) =
    (p.name.data, (p.sponsor.data, p.sponsor_link.data)) := by
  by_cases hS : p.sponsor.data = []
  · have hL : p.sponsor_link.data = [] := by
      by_contra hL
      exact (hv.link_form hL).1 hS
    have hseg : nameSegChars p = p.name.data := by
      rw [nameSegChars, pyStripChars_eq_self hv.spon_tr, if_pos hS]
    rw [hseg, splitFirstChar_not_mem hv.name_bar, hS, hL]
  · by_cases hL : p.sponsor_link.data = []
    · have hseg : nameSegChars p =
          (p.name.data ++ [' ']) ++ '|' :: (' ' :: p.sponsor.data) := by
        rw [nameSegChars, pyStripChars_eq_self hv.spon_tr,
          pyStripChars_eq_self hv.link_tr, if_neg hS, if_pos hL]
        simp
      have hbar : '|' ∉ p.name.data ++ [' '] := by
        intro hm
        rcases List.mem_append.1 hm with hm | hm
        · exact hv.name_bar hm
        · simp at hm
      rw [hseg, splitFirstChar_append hbar]
      simp only [pyStripChars_append_space hv.name_ne hv.name_tr,
        pyStripChars_cons_space hv.spon_tr,
        extractSponsorChars_no_paren hS hv.spon_tr hv.spon_paren, hL]
    · have hrest_tr : TrimmedChars (p.sponsor.data ++ ' ' :: '(' ::
          (p.sponsor_link.data ++ [')'])) := by
        constructor
        · exact nonSpaceHead_append_left hS hv.spon_tr.1
        · intro c hc
          rw [show p.sponsor.data ++ ' ' :: '(' :: (p.sponsor_link.data ++ [')']) =
              (p.sponsor.data ++ ' ' :: '(' :: p.sponsor_link.data) ++ [')'] by simp,
            List.getLast?_concat] at hc
          simp at hc
          subst hc
          rfl
      have hseg : nameSegChars p = (p.name.data ++ [' ']) ++ '|' ::
          (' ' :: (p.sponsor.data ++ ' ' :: '(' :: (p.sponsor_link.data ++ [')']))) := by
        rw [nameSegChars, pyStripChars_eq_self hv.spon_tr,
          pyStripChars_eq_self hv.link_tr, if_neg hS, if_neg hL]
        simp
      have hbar : '|' ∉ p.name.data ++ [' '] := by
        intro hm
        rcases List.mem_append.1 hm with hm | hm
        · exact hv.name_bar hm
        · simp at hm
      rw [hseg, splitFirstChar_append hbar]
      simp only [pyStripChars_append_space hv.name_ne hv.name_tr,
        pyStripChars_cons_space hrest_tr,
        extractSponsorChars_with_link hS hv.spon_tr hv.spon_paren hL hv.link_tr
          hv.link_paren hv.link_cparen (hv.link_form hL).2]

theorem amount_parse {p : Prize} (ht : 0 < p.total) (h0 : 0 ≤ p.remaining) :
    (match splitFirstChar '/' (amountChars p) with
     | some (t, r) => (pyStripChars t, pyStripChars r)
     | none => (amountChars p, amountChars p)) =
    (intToChars p.total, intToChars p.remaining) := by
  rw [amountChars]
  by_cases he : p.remaining = p.total
  · rw [if_neg (by simpa using he)]
    rw [splitFirstChar_not_mem (slash_not_mem_intToChars (by omega))]
    rw [he]
  · rw [if_pos he]
    rw [splitFirstChar_append (slash_not_mem_intToChars (by omega))]
    simp only [pyStripChars_eq_self (trimmed_intToChars p.total),
      pyStripChars_eq_self (trimmed_intToChars p.remaining)]

theorem trimmedChars_of_checks {l : List Char}
    (h1 : l.head?.all (fun c => !pyIsSpace c) = true)
    (h2 : l.getLast?.all (fun c => !pyIsSpace c) = true) : TrimmedChars l := by
  constructor
  · intro c hc
    rw [hc] at h1
    simpa using h1
  · intro c hc
    rw [hc] at h2
    simpa using h2

theorem parsePrizeCore_format {p : Prize} (hv : ValidPrizeEntry p) :
    parsePrizeCore (nameSegChars p) (amountChars p) = .ok (some p) := by
  rw [parsePrizeCore]
  rw [if_neg (nameSegChars_ne_nil hv), if_neg (amountChars_ne_nil hv.total_pos)]
  simp only [nameSeg_parts hv, amount_parse hv.total_pos hv.rem_nonneg]
  rw [if_neg hv.name_ne]
  rw [pyParseInt_intToChars, pyParseInt_intToChars]
  simp only [max_eq_left (le_of_lt hv.total_pos), min_eq_left hv.rem_le,
    max_eq_left hv.rem_nonneg]
  rw [if_neg (by have := hv.total_pos; omega)]

theorem formatPrizeLineChars_trimmed {p : Prize} (hv : ValidPrizeEntry p) :
    TrimmedChars (formatPrizeLineChars p) := by
  rw [formatPrizeLineChars_shape]
  constructor
  · exact nonSpaceHead_append_left (nameSegChars_ne_nil hv) (nameSegChars_trimmed hv).1
  · intro c hc
    rw [show nameSegChars p ++ '=' :: amountChars p =
        (nameSegChars p ++ ['=']) ++ amountChars p by simp] at hc
    rw [getLast?_append_right _ _ (amountChars_ne_nil hv.total_pos)] at hc
    exact (amountChars_trimmed hv.total_pos hv.rem_nonneg).2 c hc

theorem parsePrizeLine_format {p : Prize} (hv : ValidPrizeEntry p) :
    parsePrizeLine (formatPrizeLineChars p) = .ok (some p) := by
  have hshape := formatPrizeLineChars_shape p
  rw [parsePrizeLine, hshape]
  rw [show pyStripChars (nameSegChars p ++ '=' :: amountChars p) =
      nameSegChars p ++ '=' :: amountChars p from by
    rw [← hshape]
    exact pyStripChars_eq_self (formatPrizeLineChars_trimmed hv)]
  rw [if_neg (by simp)]
  rw [rsplitOnceChar_append (eq_not_mem_amountChars hv.total_pos hv.rem_nonneg)]
  change parsePrizeCore (pyStripChars (nameSegChars p)) (pyStripChars (amountChars p)) = _
  rw [pyStripChars_eq_self (nameSegChars_trimmed hv),
    pyStripChars_eq_self (amountChars_trimmed hv.total_pos hv.rem_nonneg)]
  exact parsePrizeCore_format hv

theorem formatPrizeLineChars_line {p : Prize} (hv : ValidPrizeEntry p) :
    formatPrizeLineChars p ≠ [] ∧ NoNewline (formatPrizeLineChars p) := by
  refine ⟨by rw [formatPrizeLineChars_shape]; simp, ?_, ?_⟩
  · rw [formatPrizeLineChars_shape]
    intro hm
    rcases List.mem_append.1 hm with hm | hm
    · exact nameSegChars_not_mem hv hv.name_lf hv.spon_lf hv.link_lf
        (by decide) (by decide) (by decide) (by decide) hm
    · rcases List.mem_cons.1 hm with hm | hm
      · cases hm
      · have := amountChars_range hv.total_pos hv.rem_nonneg _ hm
        revert this
        decide
  · rw [formatPrizeLineChars_shape]
    intro hm
    rcases List.mem_append.1 hm with hm | hm
    · exact nameSegChars_not_mem hv hv.name_cr hv.spon_cr hv.link_cr
        (by decide) (by decide) (by decide) (by decide) hm
    · rcases List.mem_cons.1 hm with hm | hm
      · cases hm
      · have := amountChars_range hv.total_pos hv.rem_nonneg _ hm
        revert this
        decide

theorem parsePrizeLinesAux_all_format :
    ∀ (ps : List Prize) (idx : Nat) (acc : List Prize),
    (∀ p ∈ ps, ValidPrizeEntry p) → acc ++ ps ≠ [] →
    parsePrizeLinesAux idx (ps.map formatPrizeLineChars) acc = .ok (acc ++ ps) := by
  intro ps
  induction ps with
  | nil =>
    intro idx acc _ hne
    rw [List.map_nil, parsePrizeLinesAux, if_neg (by simpa using hne)]
    simp
  | cons p rest ih =>
    intro idx acc hval hne
    rw [List.map_cons, parsePrizeLinesAux, parsePrizeLine_format (hval p (by simp))]
    change parsePrizeLinesAux (idx + 1) (List.map formatPrizeLineChars rest)
      (acc ++ [p]) = _
    rw [ih (idx + 1) (acc ++ [p]) (fun q hq => hval q (by simp [hq])) (by simp)]
    simp

/-- C8 as stated fails: a prize name containing the sponsor separator
'|' does not survive the round-trip — parsing the formatted pool splits
the name at the bar into a name and a sponsor. -/
theorem C8_roundtrip_counterexample :
    parse_prize_configuration (format_prize_lines [⟨"A|B", 1, 1, "", ""⟩]) ≠
      Except.ok [⟨"A|B", 1, 1, "", ""⟩] := by
  have heval : parse_prize_configuration (format_prize_lines [⟨"A|B", 1, 1, "", ""⟩]) =
      Except.ok [⟨"A", 1, 1, "B", ""⟩] := by rfl
  rw [heval]
  intro hcon
  have hlist := Except.ok.inj hcon
  have hhead : (⟨"A", 1, 1, "B", ""⟩ : Prize) = ⟨"A|B", 1, 1, "", ""⟩ := by
    injection hlist
  have : "A" = "A|B" := congrArg Prize.name hhead
  exact absurd this (by decide)

/-- C8 (amended): the round-trip parse_prize_configuration ∘
format_prize_lines is the identity on every nonempty pool of valid
entries, where a valid entry has a nonempty trimmed name free of
newlines and of the '|' separator, counts with 0 < total and
0 ≤ remaining ≤ total, a trimmed sponsor free of newlines and of '(',
and a trimmed link free of newlines and parentheses that, when present,
comes with a sponsor and starts with http:// or https://.  Names, both
counts, sponsors and links are all preserved. -/
theorem C8_roundtrip_amended (pool : List Prize) (hne : pool ≠ [])
    (hval : ∀ p ∈ pool, ValidPrizeEntry p) :
    parse_prize_configuration (format_prize_lines pool) = Except.ok pool := by
  rw [parse_prize_configuration, format_prize_lines]
  rw [show (⟨joinLines (pool.map formatPrizeLineChars)⟩ : String).data =
      joinLines (pool.map formatPrizeLineChars) from rfl]
  rw [pySplitlines_joinLines (by simpa using hne) ?hlines]
  case hlines =>
    intro l hl
    rcases List.mem_map.1 hl with ⟨p, hp, rfl⟩
    exact formatPrizeLineChars_line (hval p hp)
  rw [parseConfigLines, parsePrizeLinesAux_all_format pool 1 [] hval (by simpa using hne)]
  rfl

/-- Witness for C8's amended round-trip on a concrete two-entry pool
with a sponsored, linked prize. -/
theorem C8_witness :
    parse_prize_configuration (format_prize_lines
      [⟨"Hauptpreis", 5, 3, "ACME", "https://acme.example/win?id=1"⟩,
       ⟨"Freigetränk", 15, 15, "", ""⟩]) =
    Except.ok
      [⟨"Hauptpreis", 5, 3, "ACME", "https://acme.example/win?id=1"⟩,
       ⟨"Freigetränk", 15, 15, "", ""⟩] := by
  refine C8_roundtrip_amended _ (by simp) ?_
  intro p hp
  rcases List.mem_cons.1 hp with rfl | hp
  · exact ⟨by decide, trimmedChars_of_checks (by decide) (by decide), by decide,
      by decide, by decide, by decide, by decide, by decide,
      trimmedChars_of_checks (by decide) (by decide), by decide, by decide,
      by decide, trimmedChars_of_checks (by decide) (by decide), by decide,
      by decide, by decide, by decide, fun _ => ⟨by decide, Or.inr (by decide)⟩⟩
  · rcases List.mem_singleton.1 hp with rfl
    exact ⟨by decide, trimmedChars_of_checks (by decide) (by decide), by decide,
      by decide, by decide, by decide, by decide, by decide,
      trimmedChars_of_checks (by decide) (by decide), by decide, by decide,
      by decide, trimmedChars_of_checks (by decide) (by decide), by decide,
      by decide, by decide, by decide, fun h => absurd rfl h⟩

end Advent
